import Mathlib

/-!
# gemini-cli-proxy — verification of the translation layer

Shallow embedding of the proxy's core translation logic:

* `openaiToGemini` and its helpers — the message converter
  (`packages/proxy-server/src/converters/message-converter.ts`, async variant
  with image support).
* `geminiToOpenAIStream` / `processEvent` — the stream adapter
  (`packages/proxy-server/src/streaming/stream-adapter.ts`, variant with
  usage capture and finish-reason mapping).
* `buildNonStreamingResponse` and the non-streaming collection loop of the
  chat-completions route (`packages/proxy-server/src/routes/chat-completions.ts`).
* `mapStatusToErrorType` / `extractGaxiosError` / the global error handler
  (`packages/proxy-server/src/plugins/error-handler.ts`).

Modelling conventions:

* JavaScript `undefined`/`null` fields become `Option`; a JS truthiness test
  on a string field is an explicit `= ""` test on the `some` case.
* `uuid()` is modelled as an abstract supply `uuid : Nat → String` together
  with a counter threaded through the code in evaluation order; theorems that
  need freshness assume the supply is injective.
* `Date.now()` timestamps are explicit `Nat` parameters.
* Exceptions (`JSON.parse`, upstream failures) become `Except`/`Option`;
  `JSON.parse` and the remote image `fetch` are external effects and are
  passed in as oracles the theorems quantify over.
-/

namespace GeminiProxy

/-! ## A small JSON value model

Models the `Record<string, unknown>` argument objects that flow through tool
calls.  Numbers are modelled as integers (no claim depends on float
formatting). -/

inductive Json where
  | null
  | bool (b : Bool)
  | num (n : Int)
  | str (s : String)
  | arr (elems : List Json)
  | obj (fields : List (String × Json))

/-- Hex digit for JSON control-character escapes. -/
def hexDigit (n : Nat) : Char :=
  if n < 10 then Char.ofNat (48 + n) else Char.ofNat (87 + n)

/-- One character of `JSON.stringify` string escaping. -/
def jsonEscapeChar (c : Char) : String :=
  if c = '"' then "\\\""
  else if c = '\\' then "\\\\"
  else if c = '\n' then "\\n"
  else if c = '\r' then "\\r"
  else if c = '\t' then "\\t"
  else if c = Char.ofNat 8 then "\\b"
  else if c = Char.ofNat 12 then "\\f"
  else if c.val < 32 then
    "\\u00" ++ String.mk [hexDigit (c.toNat / 16), hexDigit (c.toNat % 16)]
  else String.singleton c

def jsonEscape (s : String) : String :=
  String.join (s.toList.map jsonEscapeChar)

mutual

/-- Model of `JSON.stringify` on the JSON value model. -/
def Json.stringify : Json → String
  | .null => "null"
  | .bool true => "true"
  | .bool false => "false"
  | .num n => toString n
  | .str s => "\"" ++ jsonEscape s ++ "\""
  | .arr es => "[" ++ Json.stringifyArr es ++ "]"
  | .obj fs => "\x7b" ++ Json.stringifyObj fs ++ "\x7d"

def Json.stringifyArr : List Json → String
  | [] => ""
  | [e] => Json.stringify e
  | e :: rest => Json.stringify e ++ "," ++ Json.stringifyArr rest

def Json.stringifyObj : List (String × Json) → String
  | [] => ""
  | [(k, v)] => "\"" ++ jsonEscape k ++ "\":" ++ Json.stringify v
  | (k, v) :: rest =>
      "\"" ++ jsonEscape k ++ "\":" ++ Json.stringify v ++ "," ++ Json.stringifyObj rest

end

/-! ## OpenAI-side message model

`ChatCompletionMessageParam` as the converter's runtime shape-sniffing sees
it.  `message.content` is `unknown` at runtime: a string, an array of typed
items, `null`/`undefined`, or some other object. -/

/-- One element of an array-shaped OpenAI `content`.
`text (some t)` is `{type:'text', text: t}` with a string `text`;
`text none` is a text item whose `text` is missing or not a string.
`imageUrl url` is `{type:'image_url', image_url:{url}}`; a missing or empty
url is modelled as `""` (both are falsy where the url is tested).
`other` is any other item (other `type` tag, non-object, `null`). -/
inductive OAIContentItem where
  | text (text? : Option String)
  | imageUrl (url : String)
  | other

/-- OpenAI `message.content` as the runtime sees it. -/
inductive OAIContent where
  | nullish
  | str (s : String)
  | items (xs : List OAIContentItem)
  | other

/-- JS truthiness of a `content` value (`if (message.content)`):
`null`/`undefined` and `''` are falsy; arrays (even empty) and other objects
are truthy. -/
def OAIContent.isTruthy : OAIContent → Bool
  | .nullish => false
  | .str s => s ≠ ""
  | .items _ => true
  | .other => true

/-- One entry of `message.tool_calls`: `{type, function: {name, arguments}}`. -/
structure OAIToolCall where
  tcType : String
  name : String
  arguments : String

/-- `ChatCompletionMessageParam`, restricted to the four roles the converter
dispatches on.  `tool_calls === undefined` and `tool_calls === []` behave
identically in the source, so both are the empty list. -/
inductive OAIMessage where
  | system (content : OAIContent)
  | user (content : OAIContent)
  | assistant (content : OAIContent) (toolCalls : List OAIToolCall)
  | tool (toolCallId : String) (content : OAIContent)

def OAIMessage.isSystem : OAIMessage → Bool
  | .system _ => true
  | _ => false

/-! ## Gemini-side content model (`@google/genai` `Content`/`Part`) -/

inductive Part where
  | text (text : String)
  | inlineData (mimeType : String) (data : String)
  | functionCall (name : String) (args : Json)
  | functionResponse (name : String) (result : OAIContent)

structure Content where
  role : String
  parts : List Part

/-! ## Message converter (`message-converter.ts`, async variant)

`extractTextContent`, `inferMimeTypeFromUrl`, `convertContentToParts` and
`openaiToGemini`, translated clause by clause. -/

/-- `extractTextContent`: text-only extraction.  The array branch keeps every
item with `type === 'text'` and `typeof text === 'string'` (including empty
strings) and joins with `'\n'`. -/
def extractTextContent : OAIContent → String
  | .nullish => ""
  | .str s => s
  | .items xs =>
      String.intercalate "\n" (xs.filterMap (fun item =>
        match item with
        | .text (some t) => some t
        | _ => none))
  | .other => ""

/-- `a.containsSubstr b` ⇔ the pattern `b` occurs in `a` (pattern nonempty in
all uses below). -/
def strContains (s pat : String) : Bool := (s.splitOn pat).length > 1

/-- `inferMimeTypeFromUrl`. -/
def inferMimeTypeFromUrl (url : String) : String :=
  let lowercaseUrl := url.toLower
  if strContains lowercaseUrl ".png" then "image/png"
  else if strContains lowercaseUrl ".gif" then "image/gif"
  else if strContains lowercaseUrl ".webp" then "image/webp"
  else if strContains lowercaseUrl ".svg" then "image/svg+xml"
  else "image/jpeg"

/-- Characters the JS regex `.` does not match (line terminators). -/
def isLineTerminator (c : Char) : Bool :=
  c = '\n' || c = '\r' || c.val = 0x2028 || c.val = 0x2029

/-- The match `/^data:([^;]+);base64,(.+)$/`: mime type is the (nonempty) run
of non-`;` characters after `data:`, which must be followed by the literal
`;base64,`; the payload is the nonempty remainder, which must contain no line
terminator (JS `.` excludes them). -/
def parseDataUrl (s : String) : Option (String × String) :=
  if s.startsWith "data:" then
    let rest := s.drop 5
    let mime := rest.takeWhile (fun c => c ≠ ';')
    if mime.isEmpty then none
    else
      let after := rest.drop mime.length
      if after.startsWith ";base64," then
        let data := after.drop 8
        if data.isEmpty then none
        else if data.toList.any isLineTerminator then none
        else some (mime, data)
      else none
  else none

/-- Result of the remote image `fetch`: `ok` flag, the
`content-type` header (`none` when absent) and the body as base64. -/
structure FetchResponse where
  ok : Bool
  contentType? : Option String
  base64Data : String

/-- One iteration of the `convertContentToParts` loop body. -/
def convertItemToParts (fetch : String → Option FetchResponse) :
    OAIContentItem → List Part
  | .text (some t) => if t = "" then [] else [.text t]
  | .text none => []
  | .imageUrl url =>
      if url = "" then []
      else if url.startsWith "data:" then
        match parseDataUrl url with
        | some (mime, data) => [.inlineData mime data]
        | none => []
      else
        -- HTTP(S) URL: fetch, convert to base64; a thrown fetch (`none`)
        -- or a non-ok response silently skips the image.
        match fetch url with
        | none => []
        | some resp =>
            if resp.ok then
              let mimeType :=
                match resp.contentType? with
                | some ct => if ct = "" then inferMimeTypeFromUrl url else ct
                | none => inferMimeTypeFromUrl url
              [.inlineData mimeType resp.base64Data]
            else []
  | .other => []

/-- `convertContentToParts`.  `!content` catches `null`/`undefined` and `''`;
non-string non-array content yields `[]`. -/
def convertContentToParts (fetch : String → Option FetchResponse) :
    OAIContent → List Part
  | .nullish => []
  | .str s => if s = "" then [] else [.text s]
  | .items xs => xs.flatMap (convertItemToParts fetch)
  | .other => []

structure ConvertResult where
  systemInstruction : Option String
  contents : List Content

/-- The assistant branch's `tool_calls` loop.  `JSON.parse` is the oracle
`parse`; a `none` result models the thrown `SyntaxError`, which aborts the
whole conversion. -/
def assistantToolParts (parse : String → Option Json) :
    List OAIToolCall → Except Unit (List Part)
  | [] => .ok []
  | tc :: rest =>
      if tc.tcType = "function" then
        match parse tc.arguments with
        | none => .error ()
        | some args =>
            match assistantToolParts parse rest with
            | .error e => .error e
            | .ok ps => .ok (.functionCall tc.name args :: ps)
      else assistantToolParts parse rest

/-- The parts list of one assistant turn: a text part when the content is
truthy, then one `functionCall` part per `function`-typed tool call. -/
def assistantParts (parse : String → Option Json) (content : OAIContent)
    (toolCalls : List OAIToolCall) : Except Unit (List Part) :=
  match assistantToolParts parse toolCalls with
  | .error e => .error e
  | .ok tps =>
      .ok ((if content.isTruthy then [.text (extractTextContent content)]
            else []) ++ tps)

/-- The `openaiToGemini` message loop, with the mutable `systemInstruction`
and `contents` accumulators made explicit. -/
def openaiToGeminiGo (parse : String → Option Json)
    (fetch : String → Option FetchResponse)
    (sys? : Option String) (acc : List Content) :
    List OAIMessage → Except Unit ConvertResult
  | [] => .ok ⟨sys?, acc⟩
  | .system content :: rest =>
      openaiToGeminiGo parse fetch (some (extractTextContent content)) acc rest
  | .user content :: rest =>
      openaiToGeminiGo parse fetch sys?
        (if (convertContentToParts fetch content).length > 0
         then acc ++ [⟨"user", convertContentToParts fetch content⟩]
         else acc) rest
  | .assistant content toolCalls :: rest =>
      match assistantParts parse content toolCalls with
      | .error e => .error e
      | .ok parts =>
          openaiToGeminiGo parse fetch sys?
            (if parts.length > 0 then acc ++ [⟨"model", parts⟩] else acc) rest
  | .tool toolCallId content :: rest =>
      openaiToGeminiGo parse fetch sys?
        (acc ++ [⟨"user", [.functionResponse toolCallId content]⟩]) rest

/-- `openaiToGemini(messages)`. -/
def openaiToGemini (parse : String → Option Json)
    (fetch : String → Option FetchResponse)
    (messages : List OAIMessage) : Except Unit ConvertResult :=
  openaiToGeminiGo parse fetch none [] messages

/-- The content of the last `system` message, if any (what the converter's
last-wins overwrite leaves in `systemInstruction`). -/
def lastSystemContent? (messages : List OAIMessage) : Option OAIContent :=
  messages.foldl (fun acc m =>
    match m with
    | .system c => some c
    | _ => acc) none

/-! ## Engine stream events (`ServerGeminiStreamEvent`, as the adapter reads them) -/

/-- `ThoughtSummary`: `{subject?, description?}` (the adapter only reads
`description`). -/
structure ThoughtSummary where
  description? : Option String
  deriving DecidableEq

/-- The value of a `tool_call_request` event:
`{callId?, name?, args?}`. -/
structure ToolCallValue where
  callId? : Option String
  name? : Option String
  args? : Option Json

/-- Usage metadata on a `finished` event (`value.usageMetadata`). -/
structure UsageMetadata where
  promptTokenCount? : Option Nat
  candidatesTokenCount? : Option Nat
  totalTokenCount? : Option Nat
  deriving DecidableEq

/-- `ServerGeminiStreamEvent`, restricted to the tags the adapter inspects.
`other` stands for every other event type (all fall through every branch).
A `none` value models a falsy `event.value`.  On `finished`, `reason?` is
`event.value.reason` and `usageMetadata?` is `event.value.usageMetadata`. -/
inductive GeminiEvent where
  | content (value : String)
  | thought (value? : Option ThoughtSummary)
  | toolCallRequest (value? : Option ToolCallValue)
  | finished (reason? : Option String) (usageMetadata? : Option UsageMetadata)
  | other

/-! ## OpenAI chunk model (`ChatCompletionChunk`) -/

/-- One element of a `tool_calls` delta list.  The aggregator treats every
field as possibly absent (`tc.index !== undefined`, `tc.id ?? …`,
`tc.function?.name`, `tc.function?.arguments`), so all are `Option`; a missing
`function` object and a `function` with missing members behave identically
and share the `none` encoding. -/
structure ToolCallDelta where
  index? : Option Nat
  id? : Option String
  tcType : String
  name? : Option String
  arguments? : Option String
  deriving DecidableEq

/-- A chunk `delta`.  `none` models an absent key (the `Object.keys` emptiness
test below counts exactly the keys the adapter may set).  `refusal?` is only
ever written as `null` at emission time and never counted. -/
structure Delta where
  role? : Option String := none
  content? : Option String := none
  reasoningContent? : Option String := none
  toolCalls? : Option (List ToolCallDelta) := none
  refusal? : Option String := none
  deriving DecidableEq

/-- `Object.keys(delta).length === 0` over the four keys `processEvent` can
set before emission. -/
def Delta.isEmptyKeys (d : Delta) : Bool :=
  d.role?.isNone && d.content?.isNone && d.reasoningContent?.isNone &&
    d.toolCalls?.isNone

/-- OpenAI `CompletionUsage`. -/
structure Usage where
  prompt_tokens : Nat
  completion_tokens : Nat
  total_tokens : Nat
  deriving DecidableEq

/-- One element of `chunk.choices` (`logprobs` is the constant `null` and is
omitted). -/
structure Choice where
  index : Nat
  delta : Delta
  finishReason? : Option String
  deriving DecidableEq

/-- `ChatCompletionChunk` (plus the optional `usage` extension the adapter
puts on the final chunk). -/
structure Chunk where
  id : String
  object : String
  created : Nat
  model : String
  choices : List Choice
  usage? : Option Usage := none
  deriving DecidableEq

/-- One SSE message yielded by the adapter: a chunk, or the literal string
`'[DONE]'`. -/
inductive SSEData where
  | chunk (c : Chunk)
  | done
  deriving DecidableEq

/-! ## Stream adapter (`stream-adapter.ts`, variant with usage capture and
finish-reason mapping) -/

/-- `processEvent` result: the chunk plus the `isToolCall` flag used to
advance the tool-call index. -/
structure ProcessEventResult where
  chunk : Chunk
  isToolCall : Bool
  deriving DecidableEq

/-- The `delta.content` assignment of `processEvent`: content events carry
the text directly; `''` is falsy and sets nothing. -/
def eventContent? : GeminiEvent → Option String
  | .content v => if v = "" then none else some v
  | _ => none

/-- The `delta.reasoning_content` assignment: only when `includeThinking`,
the `thought` value is truthy and `thought.description` is truthy. -/
def eventReasoningContent? (includeThinking : Bool) : GeminiEvent → Option String
  | .thought (some t) =>
      if includeThinking then
        match t.description? with
        | some d => if d = "" then none else some d
        | none => none
      else none
  | _ => none

/-- The `finishReason` local of `processEvent`: `null` except on `finished`
events, whose Gemini reason is mapped
(`STOP→stop`, `MAX_TOKENS→length`, `SAFETY|RECITATION|OTHER→content_filter`,
anything else→`stop`). -/
def eventFinishReason? : GeminiEvent → Option String
  | .finished geminiReason? _ =>
      some (if geminiReason? = some "STOP" then "stop"
        else if geminiReason? = some "MAX_TOKENS" then "length"
        else if geminiReason? = some "SAFETY" ∨ geminiReason? = some "RECITATION" ∨
            geminiReason? = some "OTHER" then "content_filter"
        else "stop")
  | _ => none

/-- The one-element `delta.tool_calls` list built for a (truthy)
`tool_call_request` event.  `uctr` is the uuid counter used for the
`call_${uuid()}` fallback. -/
def eventToolCalls? (uuid : Nat → String) (toolCallIndex uctr : Nat) :
    GeminiEvent → Option (List ToolCallDelta)
  | .toolCallRequest (some toolCall) =>
      some [{ index? := some toolCallIndex,
              id? := some (match toolCall.callId? with
                           | some cid => cid
                           | none => "call_" ++ uuid uctr),
              tcType := "function",
              name? := some (toolCall.name?.getD ""),
              arguments? := some (Json.stringify (toolCall.args?.getD (.obj []))) }]
  | _ => none

/-- The `isToolCall` flag: set exactly when a (truthy) tool-call event built
a `tool_calls` delta. -/
def eventIsToolCall : GeminiEvent → Bool
  | .toolCallRequest (some _) => true
  | _ => false

/-- The uuid counter after `processEvent`: one draw happens exactly when a
(truthy) tool-call event carries no `callId`. -/
def eventUctrAfter (uctr : Nat) : GeminiEvent → Nat
  | .toolCallRequest (some toolCall) =>
      match toolCall.callId? with
      | some _ => uctr
      | none => uctr + 1
  | _ => uctr

/-- The `delta` object assembled by `processEvent` (before the
`refusal: delta.refusal ?? null` spread at emission, which adds the constant
`null` and is not counted by the emptiness check). -/
def eventDelta (uuid : Nat → String) (includeThinking isFirstChunk : Bool)
    (toolCallIndex uctr : Nat) (event : GeminiEvent) : Delta :=
  { role? := if isFirstChunk then some "assistant" else none,
    content? := eventContent? event,
    reasoningContent? := eventReasoningContent? includeThinking event,
    toolCalls? := eventToolCalls? uuid toolCallIndex uctr event }

/-- `processEvent(event, id, created, model, isFirstChunk, includeThinking,
toolCallIndex)`.  Returns the optional emission result together with the
uuid counter after the call. -/
def processEvent (uuid : Nat → String) (includeThinking : Bool)
    (id : String) (created : Nat) (model : String)
    (isFirstChunk : Bool) (toolCallIndex : Nat) (uctr : Nat)
    (event : GeminiEvent) : Option ProcessEventResult × Nat :=
  -- only emit if we have content
  if (eventDelta uuid includeThinking isFirstChunk toolCallIndex uctr event).isEmptyKeys then
    (none, eventUctrAfter uctr event)
  else
    (some { chunk := { id := id, object := "chat.completion.chunk",
                       created := created, model := model,
                       choices := [{ index := 0,
                                     delta := eventDelta uuid includeThinking
                                       isFirstChunk toolCallIndex uctr event,
                                     finishReason? := eventFinishReason? event }] },
            isToolCall := eventIsToolCall event },
     eventUctrAfter uctr event)

/-- The usage capture at the top of the adapter loop:
`if (event.type === 'finished' && event.value.usageMetadata) usage = {...}`. -/
def captureUsage (usage? : Option Usage) (event : GeminiEvent) : Option Usage :=
  match event with
  | .finished _ (some um) =>
      some { prompt_tokens := um.promptTokenCount?.getD 0,
             completion_tokens := um.candidatesTokenCount?.getD 0,
             total_tokens := um.totalTokenCount?.getD 0 }
  | _ => usage?

/-- The adapter loop's mutable state. -/
structure AdapterState where
  isFirstChunk : Bool
  toolCallIndex : Nat
  uctr : Nat
  usage? : Option Usage
  deriving DecidableEq

/-- The `for await (const event of geminiStream)` loop: emitted chunks in
order, plus the final state. -/
def adapterLoop (uuid : Nat → String) (includeThinking : Bool)
    (id : String) (created : Nat) (model : String) :
    AdapterState → List GeminiEvent → List Chunk × AdapterState
  | st, [] => ([], st)
  | st, event :: rest =>
      match processEvent uuid includeThinking id created model
          st.isFirstChunk st.toolCallIndex st.uctr event with
      | (none, uctr') =>
          adapterLoop uuid includeThinking id created model
            { st with uctr := uctr', usage? := captureUsage st.usage? event } rest
      | (some r, uctr') =>
          ((r.chunk ::
              (adapterLoop uuid includeThinking id created model
                { isFirstChunk := false,
                  toolCallIndex :=
                    st.toolCallIndex + (if r.isToolCall then 1 else 0),
                  uctr := uctr',
                  usage? := captureUsage st.usage? event } rest).1),
           (adapterLoop uuid includeThinking id created model
             { isFirstChunk := false,
               toolCallIndex :=
                 st.toolCallIndex + (if r.isToolCall then 1 else 0),
               uctr := uctr',
               usage? := captureUsage st.usage? event } rest).2)

/-- The final chunk emitted after the source stream completes. -/
def finalChunk (id : String) (created : Nat) (model : String)
    (usage? : Option Usage) : Chunk :=
  { id := id, object := "chat.completion.chunk", created := created,
    model := model,
    choices := [{ index := 0, delta := {}, finishReason? := some "stop" }],
    usage? := usage? }

/-- `geminiToOpenAIStream(geminiStream, model, includeThinking)`, as the list
of SSE messages produced for the whole (finite) event stream, together with
the uuid counter after the stream is drained.  `u0` is the counter at entry
(the stream id consumes the first draw); `created` is
`Math.floor(Date.now()/1000)` at entry. -/
def geminiToOpenAIStreamWithState (uuid : Nat → String) (u0 : Nat)
    (created : Nat) (events : List GeminiEvent) (model : String)
    (includeThinking : Bool) : List SSEData × Nat :=
  let id := "chatcmpl-" ++ uuid u0
  let run := adapterLoop uuid includeThinking id created model
    { isFirstChunk := true, toolCallIndex := 0, uctr := u0 + 1, usage? := none }
    events
  (run.1.map SSEData.chunk ++
     [SSEData.chunk (finalChunk id created model run.2.usage?), SSEData.done],
   run.2.uctr)

def geminiToOpenAIStream (uuid : Nat → String) (u0 : Nat) (created : Nat)
    (events : List GeminiEvent) (model : String) (includeThinking : Bool) :
    List SSEData :=
  (geminiToOpenAIStreamWithState uuid u0 created events model includeThinking).1

/-! ## Chat-completions route: session history wiring (C7) -/

/-- The shared session's engine client, reduced to the piece of state the
route manipulates: the conversation history (`client.setHistory`). -/
structure GeminiSession where
  history : List Content

/-- `setHistory` replaces the stored history wholesale. -/
def GeminiSession.setHistory (s : GeminiSession) (h : List Content) :
    GeminiSession :=
  { s with history := h }

/-- The route's history/submit step:
`lastUserContent = contents[contents.length-1]` (reply 400 when absent,
modelled as `none`), then `setHistory(contents.slice(0,-1))` and
`sendMessageStream(lastUserContent.parts ?? [], …)`.  Returns the updated
session and the parts submitted as the new message. -/
def routePrepareInvocation (session : GeminiSession) (contents : List Content) :
    Option (GeminiSession × List Part) :=
  match contents.getLast? with
  | none => none
  | some lastUserContent =>
      some (session.setHistory (contents.dropLast), lastUserContent.parts)

/-! ## Chat-completions route: non-streaming aggregation (C2, C4) -/

/-- Accumulator for one reconstructed tool call
(`{id, type:'function', function:{name, arguments}}`). -/
structure ToolCallAcc where
  id : String
  name : String
  arguments : String
  deriving DecidableEq

/-- Lookup in the sparse `toolCalls` array model. -/
def accLookup (i : Nat) : List (Nat × ToolCallAcc) → Option ToolCallAcc
  | [] => none
  | (j, a) :: rest => if j = i then some a else accLookup i rest

/-- Insert a fresh entry keeping the list sorted by index (the JS sparse
array, read back in index order by `filter(Boolean)`). -/
def accInsert (i : Nat) (a : ToolCallAcc) :
    List (Nat × ToolCallAcc) → List (Nat × ToolCallAcc)
  | [] => [(i, a)]
  | (j, b) :: rest =>
      if i < j then (i, a) :: (j, b) :: rest else (j, b) :: accInsert i a rest

/-- Update the entry at index `i` in place. -/
def accModify (i : Nat) (f : ToolCallAcc → ToolCallAcc)
    (acc : List (Nat × ToolCallAcc)) : List (Nat × ToolCallAcc) :=
  acc.map (fun e => if e.1 = i then (e.1, f e.2) else e)

/-- The slot-creation step of the tool-call accumulation
(`if (!toolCalls[tc.index]) toolCalls[tc.index] = {...}`): on first sight of
an index, create the accumulator, drawing `call_${uuid()}` only when `tc.id`
is nullish. -/
def ensureToolCallSlot (uuid : Nat → String)
    (st : List (Nat × ToolCallAcc) × Nat) (i : Nat) (id? : Option String) :
    List (Nat × ToolCallAcc) × Nat :=
  if (accLookup i st.1).isSome then st
  else
    match id? with
    | some cid => (accInsert i ⟨cid, "", ""⟩ st.1, st.2)
    | none => (accInsert i ⟨"call_" ++ uuid st.2, "", ""⟩ st.1, st.2 + 1)

/-- `if (tc.function?.name) toolCalls[tc.index].function.name += …`. -/
def appendToolCallName (i : Nat) (name? : Option String)
    (acc : List (Nat × ToolCallAcc)) : List (Nat × ToolCallAcc) :=
  match name? with
  | some n =>
      if n = "" then acc
      else accModify i (fun a => { a with name := a.name ++ n }) acc
  | none => acc

/-- `if (tc.function?.arguments) toolCalls[tc.index].function.arguments += …`. -/
def appendToolCallArguments (i : Nat) (arguments? : Option String)
    (acc : List (Nat × ToolCallAcc)) : List (Nat × ToolCallAcc) :=
  match arguments? with
  | some s =>
      if s = "" then acc
      else accModify i (fun a => { a with arguments := a.arguments ++ s }) acc
  | none => acc

/-- The `for (const tc of delta.tool_calls)` body of
`buildNonStreamingResponse`: skip deltas with no index, create the slot on
first sight of an index, then append truthy `function.name` /
`function.arguments` fragments. -/
def applyToolCallDelta (uuid : Nat → String)
    (st : List (Nat × ToolCallAcc) × Nat) (tc : ToolCallDelta) :
    List (Nat × ToolCallAcc) × Nat :=
  match tc.index? with
  | none => st
  | some i =>
      (appendToolCallArguments i tc.arguments?
         (appendToolCallName i tc.name? (ensureToolCallSlot uuid st i tc.id?).1),
       (ensureToolCallSlot uuid st i tc.id?).2)

/-- `chunk.choices[0]?.delta`. -/
def deltaOf (c : Chunk) : Option Delta := c.choices.head?.map (·.delta)

/-- Intermediate state of the `buildNonStreamingResponse` aggregation loop. -/
structure AggState where
  content : String
  reasoningContent : String
  toolCalls : List (Nat × ToolCallAcc)
  uctr : Nat

/-- The aggregation loop body for one chunk.  The JS truthiness guards on
`delta.content` / `delta.reasoning_content` only skip appending the empty
string, which is the identity, so `getD ""` is behaviourally identical. -/
def aggStep (uuid : Nat → String) (st : AggState) (c : Chunk) : AggState :=
  match deltaOf c with
  | none => st
  | some d =>
      { content := st.content ++ (d.content?.getD ""),
        reasoningContent := st.reasoningContent ++ (d.reasoningContent?.getD ""),
        toolCalls := ((d.toolCalls?.getD []).foldl (applyToolCallDelta uuid)
          (st.toolCalls, st.uctr)).1,
        uctr := ((d.toolCalls?.getD []).foldl (applyToolCallDelta uuid)
          (st.toolCalls, st.uctr)).2 }

/-- `choices[0].message` of the aggregated response (`refusal` is the
constant `null` and is omitted). -/
structure ChatMessage where
  role : String
  content? : Option String
  reasoningContent? : Option String
  toolCalls? : Option (List ToolCallAcc)
  deriving DecidableEq

structure CompletionChoice where
  index : Nat
  message : ChatMessage
  finishReason : String
  deriving DecidableEq

/-- The aggregated non-streaming `ChatCompletion`. -/
structure ChatCompletion where
  id : String
  object : String
  created : Nat
  model : String
  choices : List CompletionChoice
  usage : Usage
  deriving DecidableEq

/-- JS truthiness of `c.choices[0]?.finish_reason`. -/
def truthyFinish (c : Chunk) : Bool :=
  match c.choices.head?.bind (·.finishReason?) with
  | some s => s ≠ ""
  | none => false

/-- `buildNonStreamingResponse(chunks, model, usage)`.  `u0` is the uuid
counter when the function is entered, `now` the fallback
`Math.floor(Date.now()/1000)`. -/
def buildNonStreamingResponse (uuid : Nat → String) (u0 : Nat) (now : Nat)
    (chunks : List Chunk) (model : String) (usage? : Option Usage) :
    ChatCompletion :=
  let agg := chunks.foldl (aggStep uuid) ⟨"", "", [], u0⟩
  let finishReason :=
    match chunks.find? truthyFinish with
    | some c => (c.choices.head?.bind (·.finishReason?)).getD "stop"
    | none => "stop"
  { id := (chunks.head?.map (·.id)).getD ("chatcmpl-" ++ uuid agg.uctr),
    object := "chat.completion",
    created := (chunks.head?.map (·.created)).getD now,
    model := model,
    choices := [{ index := 0,
                  message := { role := "assistant",
                               content? :=
                                 if agg.content = "" then none
                                 else some agg.content,
                               reasoningContent? :=
                                 if agg.reasoningContent = "" then none
                                 else some agg.reasoningContent,
                               toolCalls? :=
                                 if agg.toolCalls.length > 0 then
                                   some (agg.toolCalls.map (·.2))
                                 else none },
                  finishReason := finishReason }],
    usage := usage?.getD ⟨0, 0, 0⟩ }

/-- The content guard's per-chunk test:
`c.choices[0]?.delta?.content || c.choices[0]?.delta?.tool_calls?.length`. -/
def chunkHasContent (c : Chunk) : Bool :=
  match deltaOf c with
  | none => false
  | some d =>
      (match d.content? with
       | some s => s ≠ ""
       | none => false) ||
      (match d.toolCalls? with
       | some l => !l.isEmpty
       | none => false)

def noContentErrorMessage : String :=
  "No content received from the model. The request may have been rejected."

/-- The route's collection loop: keep every non-string SSE message. -/
def collectChunks (out : List SSEData) : List Chunk :=
  out.filterMap (fun m =>
    match m with
    | .chunk c => some c
    | .done => none)

/-- `if (chunk.usage) usage = chunk.usage` across the collection loop: the
last truthy usage wins. -/
def lastChunkUsage? (chunks : List Chunk) : Option Usage :=
  chunks.foldl (fun u c =>
    match c.usage? with
    | some x => some x
    | none => u) none

/-- The non-streaming branch of the chat-completions route: drain the adapted
stream collecting every non-string message (remembering the last truthy
`chunk.usage`), apply the no-content guard
(`if (!hasContent && chunks.length <= 1) throw`), and build the aggregate
response. -/
def nonStreamingPath (uuid : Nat → String) (u0 : Nat) (now : Nat)
    (events : List GeminiEvent) (model : String) (includeThinking : Bool) :
    Except String ChatCompletion :=
  if !((collectChunks (geminiToOpenAIStream uuid u0 now events model
          includeThinking)).any chunkHasContent) &&
      (collectChunks (geminiToOpenAIStream uuid u0 now events model
          includeThinking)).length ≤ 1 then
    .error noContentErrorMessage
  else
    .ok (buildNonStreamingResponse uuid
      (geminiToOpenAIStreamWithState uuid u0 now events model includeThinking).2
      now
      (collectChunks (geminiToOpenAIStream uuid u0 now events model
        includeThinking))
      model
      (lastChunkUsage? (collectChunks (geminiToOpenAIStream uuid u0 now events
        model includeThinking))))

/-! ## Chat-completions route: streaming error path (C10) -/

/-- The in-band SSE error chunk the route writes when an error is thrown
after the SSE headers were sent.  `uErr` is the uuid counter at error time,
`tErr` the error-time `Math.floor(Date.now()/1000)`; `errMessage?` is
`streamError.message` when the thrown value is an `Error`, otherwise
the literal fallback `'Stream error'` is used. -/
def streamErrorChunk (uuid : Nat → String) (uErr : Nat) (tErr : Nat)
    (model : String) (errMessage? : Option String) : Chunk :=
  { id := "chatcmpl-" ++ uuid uErr,
    object := "chat.completion.chunk",
    created := tErr,
    model := model,
    choices := [{ index := 0,
                  delta :=
                    { content? :=
                        some ("\n\n[Error: " ++
                          errMessage?.getD "Stream error" ++ "]") },
                  finishReason? := some "stop" }],
    usage? := none }

/-- The full SSE frame sequence of a streaming request whose iteration throws
after `k` frames were already written: the written prefix of the adapted
stream, then the in-band error chunk, then the `[DONE]` sentinel. -/
def streamingErrorOutput (uuid : Nat → String) (u0 : Nat) (tStart : Nat)
    (uErr : Nat) (tErr : Nat) (model : String) (includeThinking : Bool)
    (events : List GeminiEvent) (k : Nat) (errMessage? : Option String) :
    List SSEData :=
  (geminiToOpenAIStream uuid u0 tStart events model includeThinking).take k ++
    [SSEData.chunk (streamErrorChunk uuid uErr tErr model errMessage?),
     SSEData.done]

/-! ## Error handler plugin (`error-handler.ts`) -/

/-- Maps HTTP status codes to OpenAI error types and codes
(`mapStatusToErrorType`). -/
def mapStatusToErrorType (status : Nat) : String × String :=
  if status = 400 then ("invalid_request_error", "bad_request")
  else if status = 401 then ("authentication_error", "invalid_api_key")
  else if status = 403 then ("permission_error", "insufficient_permissions")
  else if status = 404 then ("invalid_request_error", "model_not_found")
  else if status = 429 then ("rate_limit_error", "rate_limit_exceeded")
  else if status ≥ 500 then ("api_error", "server_error")
  else ("api_error", "internal_error")

/-- `response.data` of a Gaxios-style error: a string body, or an object
whose `error?.message` may be present. -/
inductive ResponseData where
  | str (s : String)
  | obj (errorMessage? : Option String)

/-- `err.response` of a Gaxios-style error. -/
structure ErrorResponseInfo where
  status? : Option Nat
  statusText? : Option String
  data? : Option ResponseData

/-- `JSON.parse` result of a string `response.data`, as the extractor reads
it: `{error?: {message?}, message?}`. -/
structure ParsedErrData where
  errorMessage? : Option String
  message? : Option String

/-- The error value reaching the global handler, reduced to the fields it
inspects. -/
structure JsError where
  code? : Option String
  statusCode? : Option Nat
  status? : Option Nat
  message? : Option String
  response? : Option ErrorResponseInfo

structure ExtractedError where
  status : Nat
  message : String

/-- `extractGaxiosError(error)`.  `parseErr` is the `JSON.parse` oracle for
string response bodies (`none` = thrown, in which case the raw body becomes
the message). -/
def extractGaxiosError (parseErr : String → Option ParsedErrData)
    (err : JsError) : Option ExtractedError :=
  -- status: prefer direct status, fall back to response.status
  let status? : Option Nat :=
    match err.status? with
    | some s => some s
    | none =>
        match err.response? with
        | some r => r.status?
        | none => none
  match status? with
  | none => none
  | some status =>
      -- message: try response.data first ('' is falsy and is skipped)
      let message? : Option String :=
        match err.response? with
        | some r =>
            match r.data? with
            | some (.str s) =>
                if s = "" then none
                else
                  match parseErr s with
                  | some parsed =>
                      (match parsed.errorMessage? with
                       | some m => some m
                       | none => parsed.message?)
                  | none => some s
            | some (.obj em?) => em?
            | none => none
        | none => none
      -- `if (!message)` fallback chain (a `some ""` message is falsy too)
      let message :=
        if message?.getD "" = "" then
          match err.message? with
          | some m => m
          | none =>
              match err.response?.bind (·.statusText?) with
              | some st => st
              | none => "HTTP " ++ toString status ++ " error"
        else message?.getD ""
      some ⟨status, message⟩

structure OpenAIErrorBody where
  message : String
  etype : String
  ecode : String

def createOpenAIError (status : Nat) (message : String) : OpenAIErrorBody :=
  let tc := mapStatusToErrorType status
  ⟨message, tc.1, tc.2⟩

/-- The `setErrorHandler` callback: validation errors keep their (defaulted
400) status; Gaxios-shaped errors use the extracted status and message;
anything else uses `statusCode ?? 500` and `message || 'Internal server
error'`.  Returns the HTTP status and the OpenAI-format body. -/
def errorHandler (parseErr : String → Option ParsedErrData) (err : JsError) :
    Nat × OpenAIErrorBody :=
  if err.code? = some "FST_ERR_VALIDATION" then
    let status := err.statusCode?.getD 400
    (status, createOpenAIError status (err.message?.getD ""))
  else
    match extractGaxiosError parseErr err with
    | some g => (g.status, createOpenAIError g.status g.message)
    | none =>
        let statusCode := err.statusCode?.getD 500
        let message :=
          if err.message?.getD "" = "" then "Internal server error"
          else err.message?.getD ""
        (statusCode, createOpenAIError statusCode message)

/-! ## Observations used in theorem statements -/

/-- The tool-call indices carried by one chunk's deltas. -/
def chunkToolIndices (c : Chunk) : List Nat :=
  c.choices.flatMap (fun ch => (ch.delta.toolCalls?.getD []).filterMap (·.index?))

/-- The tool-call indices of a chunk list, in emission order. -/
def chunksToolIndices (chunks : List Chunk) : List Nat :=
  chunks.flatMap chunkToolIndices

/-- The tool-call indices of an SSE message list, in emission order. -/
def outToolIndices (out : List SSEData) : List Nat :=
  out.flatMap (fun m =>
    match m with
    | .chunk c => chunkToolIndices c
    | .done => [])

/-- Number of `tool_call_request` events in an engine stream. -/
def countToolCallEvents (events : List GeminiEvent) : Nat :=
  events.countP (fun e =>
    match e with
    | .toolCallRequest _ => true
    | _ => false)

/-- Events that contribute `delta.content` or a `tool_calls` delta to the
adapted stream (what the route's `hasContent` guard can see). -/
def eventYieldsContent : GeminiEvent → Bool
  | .content s => s ≠ ""
  | .toolCallRequest (some _) => true
  | _ => false

/-- The finish reason of the terminal chunk of an SSE message list (the
second-to-last message; the last is the `[DONE]` sentinel). -/
def terminalFinishReason? (out : List SSEData) : Option String :=
  match out.get? (out.length - 2) with
  | some (.chunk c) => c.choices.head?.bind (·.finishReason?)
  | _ => none

/-- `created` of the `n`-th SSE message, when it is a chunk. -/
def nthChunkCreated (out : List SSEData) (n : Nat) : Option Nat :=
  match out.get? n with
  | some (.chunk c) => some c.created
  | _ => none

/-- `choices[0].message` of an aggregated response. -/
def responseMessage? (r : ChatCompletion) : Option ChatMessage :=
  r.choices.head?.map (·.message)

/-- The reconstructed tool calls of an aggregated response. -/
def responseToolCalls (r : ChatCompletion) : List ToolCallAcc :=
  ((responseMessage? r).bind (·.toolCalls?)).getD []

/-- The aggregated `message.content` as a string (`null` reads as `""`). -/
def responseContentText (r : ChatCompletion) : String :=
  ((responseMessage? r).bind (·.content?)).getD ""

/-- The aggregated `message.reasoning_content` as a string. -/
def responseReasoningText (r : ChatCompletion) : String :=
  ((responseMessage? r).bind (·.reasoningContent?)).getD ""

/-- All `tool_calls` delta elements of a chunk list, in stream order. -/
def streamToolDeltas (chunks : List Chunk) : List ToolCallDelta :=
  chunks.flatMap (fun c => ((deltaOf c).bind (·.toolCalls?)).getD [])

/-- The in-order concatenation of the `delta.content` fragments of a chunk
list. -/
def specContent (chunks : List Chunk) : String :=
  chunks.foldl (fun s c => s ++ (((deltaOf c).bind (·.content?)).getD "")) ""

/-- The in-order concatenation of the `delta.reasoning_content` fragments. -/
def specReasoning (chunks : List Chunk) : String :=
  chunks.foldl (fun s c => s ++ (((deltaOf c).bind (·.reasoningContent?)).getD "")) ""

/-- A concrete uuid supply for witnesses: pairwise-distinct strings. -/
def sampleUuid (n : Nat) : String := String.mk (List.replicate n 'a')

/-- A concrete adapted chunk carrying one tool-call delta at index 0. -/
def sampleToolChunk0 : Chunk :=
  { id := "i", object := "chat.completion.chunk", created := 5, model := "m",
    choices := [{ index := 0,
                  delta := { toolCalls? := some [⟨some 0, some "id0",
                    "function", some "fn0", some "\x7b\x7d"⟩] },
                  finishReason? := none }],
    usage? := none }

/-- A concrete adapted chunk carrying content and a tool-call delta at
index 1. -/
def sampleToolChunk1 : Chunk :=
  { id := "i", object := "chat.completion.chunk", created := 5, model := "m",
    choices := [{ index := 0,
                  delta := { content? := some "hey",
                             toolCalls? := some [⟨some 1, some "id1",
                               "function", some "fn1", some "\x7b\x7d"⟩] },
                  finishReason? := none }],
    usage? := none }

/-- The chunk the adapter emits for a first `content "hi"` event when the
stream id is `chatcmpl-` (i.e. `sampleUuid 0 = ""`) and `created = 100`. -/
def sampleContentChunk : Chunk :=
  { id := "chatcmpl-", object := "chat.completion.chunk", created := 100,
    model := "m",
    choices := [{ index := 0,
                  delta := { role? := some "assistant",
                             content? := some "hi" },
                  finishReason? := none }],
    usage? := none }

/-- A concrete truthy tool-call request event. -/
def sampleToolEvent : GeminiEvent :=
  .toolCallRequest (some ⟨some "c1", some "f", none⟩)

/-- The `systemInstruction` accumulator after folding the remaining
messages. -/
def sysAfter (sys? : Option String) (msgs : List OAIMessage) : Option String :=
  msgs.foldl (fun acc m =>
    match m with
    | .system c => some (extractTextContent c)
    | _ => acc) sys?

/-- The last-system fold (`lastSystemContent?` with an explicit starting
accumulator). -/
def lastSysFold (c0? : Option OAIContent) (msgs : List OAIMessage) :
    Option OAIContent :=
  msgs.foldl (fun a m =>
    match m with
    | .system c => some c
    | _ => a) c0?

/-! ## Basic string lemmas -/

theorem string_append_left_cancel {s a b : String} (h : s ++ a = s ++ b) :
    a = b := by
  cases s with
  | mk sd =>
    cases a with
    | mk ad =>
      cases b with
      | mk bd =>
        have hd : sd ++ ad = sd ++ bd := congrArg String.data h
        exact congrArg String.mk (List.append_cancel_left hd)

theorem string_append_empty (s : String) : s ++ "" = s := by
  cases s with
  | mk sd => exact congrArg String.mk (List.append_nil sd)

theorem string_append_assoc (a b c : String) : a ++ b ++ c = a ++ (b ++ c) := by
  cases a with
  | mk ad =>
    cases b with
    | mk bd =>
      cases c with
      | mk cd => exact congrArg String.mk (List.append_assoc ad bd cd)

theorem sampleUuid_injective : Function.Injective sampleUuid := by
  intro m n h
  have hlen : (sampleUuid m).data.length = (sampleUuid n).data.length := by
    rw [h]
  simpa [sampleUuid] using hlen

/-! ## Stream adapter lemmas -/

theorem processEvent_first_isSome (uuid : Nat → String) (inc : Bool)
    (id : String) (cr : Nat) (m : String) (ti uc : Nat) (e : GeminiEvent) :
    (processEvent uuid inc id cr m true ti uc e).1.isSome := by
  simp [processEvent, eventDelta, Delta.isEmptyKeys]

theorem processEvent_snd (uuid : Nat → String) (inc : Bool)
    (id : String) (cr : Nat) (m : String) (fst : Bool) (ti uc : Nat)
    (e : GeminiEvent) :
    (processEvent uuid inc id cr m fst ti uc e).2 = eventUctrAfter uc e := by
  unfold processEvent
  split <;> rfl

theorem processEvent_some_chunk {uuid : Nat → String} {inc : Bool}
    {id : String} {cr : Nat} {m : String} {fst : Bool} {ti uc : Nat}
    {e : GeminiEvent} {r : ProcessEventResult}
    (h : (processEvent uuid inc id cr m fst ti uc e).1 = some r) :
    r.chunk = { id := id, object := "chat.completion.chunk", created := cr,
                model := m,
                choices := [{ index := 0,
                              delta := eventDelta uuid inc fst ti uc e,
                              finishReason? := eventFinishReason? e }] } ∧
      r.isToolCall = eventIsToolCall e := by
  unfold processEvent at h
  split at h
  · simp at h
  · rw [show ∀ (a : Option ProcessEventResult) (b : Nat), (a, b).1 = a from
      fun _ _ => rfl] at h
    cases h
    exact ⟨rfl, rfl⟩

/-- Every chunk the adapter loop emits carries the id and timestamp fixed at
stream entry. -/
theorem adapterLoop_id_created (uuid : Nat → String) (inc : Bool)
    (id : String) (cr : Nat) (m : String) :
    ∀ (events : List GeminiEvent) (st : AdapterState) (c : Chunk),
      c ∈ (adapterLoop uuid inc id cr m st events).1 →
      c.id = id ∧ c.created = cr := by
  intro events
  induction events with
  | nil => intro st c hc; simp [adapterLoop] at hc
  | cons e rest ih =>
      intro st c hc
      rw [adapterLoop] at hc
      rcases hpe : processEvent uuid inc id cr m st.isFirstChunk
          st.toolCallIndex st.uctr e with ⟨res, uc'⟩
      rw [hpe] at hc
      cases res with
      | none => exact ih _ c hc
      | some r =>
          rcases List.mem_cons.mp hc with hhead | htail
          · subst hhead
            have hfst : (processEvent uuid inc id cr m st.isFirstChunk
                st.toolCallIndex st.uctr e).1 = some r := by
              rw [hpe]
            rcases processEvent_some_chunk hfst with ⟨hck, _⟩
            rw [hck]
            exact ⟨rfl, rfl⟩
          · exact ih _ c htail

/-- The adapter loop threads the usage capture as a left fold over the
events. -/
theorem adapterLoop_usage (uuid : Nat → String) (inc : Bool)
    (id : String) (cr : Nat) (m : String) :
    ∀ (events : List GeminiEvent) (st : AdapterState),
      (adapterLoop uuid inc id cr m st events).2.usage? =
        events.foldl captureUsage st.usage? := by
  intro events
  induction events with
  | nil => intro st; simp [adapterLoop]
  | cons e rest ih =>
      intro st
      rw [adapterLoop, List.foldl_cons]
      rcases hpe : processEvent uuid inc id cr m st.isFirstChunk
          st.toolCallIndex st.uctr e with ⟨res, uc'⟩
      cases res with
      | none => exact ih _
      | some r => exact ih _

/-- If the loop starts on its first chunk and at least one event remains,
at least one chunk is emitted (the first processed event always sets
`delta.role`). -/
theorem adapterLoop_first_emits (uuid : Nat → String) (inc : Bool)
    (id : String) (cr : Nat) (m : String) (e : GeminiEvent)
    (rest : List GeminiEvent) (st : AdapterState)
    (hfst : st.isFirstChunk = true) :
    (adapterLoop uuid inc id cr m st (e :: rest)).1 ≠ [] := by
  rw [adapterLoop]
  rcases hpe : processEvent uuid inc id cr m st.isFirstChunk
      st.toolCallIndex st.uctr e with ⟨res, uc'⟩
  cases res with
  | none =>
      exfalso
      have h1 := processEvent_first_isSome uuid inc id cr m st.toolCallIndex
        st.uctr e
      rw [← hfst, hpe] at h1
      simp [hfst] at h1
  | some r => simp

theorem eventToolCalls?_indices (uuid : Nat → String) (ti uc : Nat)
    (e : GeminiEvent) :
    ((eventToolCalls? uuid ti uc e).getD []).filterMap (·.index?) =
      if eventIsToolCall e then [ti] else [] := by
  cases e with
  | toolCallRequest v? =>
      cases v? with
      | none => simp [eventToolCalls?, eventIsToolCall]
      | some v => simp [eventToolCalls?, eventIsToolCall]
  | content v => simp [eventToolCalls?, eventIsToolCall]
  | thought v? => simp [eventToolCalls?, eventIsToolCall]
  | finished r? u? => simp [eventToolCalls?, eventIsToolCall]
  | other => simp [eventToolCalls?, eventIsToolCall]

theorem processEvent_none_not_tool {uuid : Nat → String} {inc : Bool}
    {id : String} {cr : Nat} {m : String} {fst : Bool} {ti uc : Nat}
    {e : GeminiEvent}
    (h : (processEvent uuid inc id cr m fst ti uc e).1 = none) :
    eventIsToolCall e = false := by
  unfold processEvent at h
  split at h
  case isTrue hcond =>
      have htc : eventToolCalls? uuid ti uc e = none := by
        simp [Delta.isEmptyKeys, eventDelta, Bool.and_eq_true] at hcond
        tauto
      cases e with
      | toolCallRequest v? =>
          cases v? with
          | none => rfl
          | some v => simp [eventToolCalls?] at htc
      | content v => rfl
      | thought v? => rfl
      | finished r? u? => rfl
      | other => rfl
  case isFalse hcond => simp at h

/-- The tool-call indices emitted by the adapter loop starting at counter
`st.toolCallIndex` are exactly the contiguous block
`toolCallIndex, toolCallIndex+1, …`, one per (truthy) tool-call event. -/
theorem adapterLoop_toolIndices (uuid : Nat → String) (inc : Bool)
    (id : String) (cr : Nat) (m : String) :
    ∀ (events : List GeminiEvent) (st : AdapterState),
      chunksToolIndices (adapterLoop uuid inc id cr m st events).1 =
        List.range' st.toolCallIndex (events.countP eventIsToolCall) := by
  intro events
  induction events with
  | nil => intro st; simp [adapterLoop, chunksToolIndices]
  | cons e rest ih =>
      intro st
      rw [adapterLoop]
      rcases hpe : processEvent uuid inc id cr m st.isFirstChunk
          st.toolCallIndex st.uctr e with ⟨res, uc'⟩
      cases res with
      | none =>
          have hnt : eventIsToolCall e = false := by
            apply @processEvent_none_not_tool uuid inc id cr m
              st.isFirstChunk st.toolCallIndex st.uctr e
            rw [hpe]
          rw [List.countP_cons, hnt]
          simpa using ih _
      | some r =>
          have hfst : (processEvent uuid inc id cr m st.isFirstChunk
              st.toolCallIndex st.uctr e).1 = some r := by rw [hpe]
          rcases processEvent_some_chunk hfst with ⟨hck, hit⟩
          have hhead : chunkToolIndices r.chunk =
              if eventIsToolCall e then [st.toolCallIndex] else [] := by
            rw [hck]
            simp only [chunkToolIndices, List.flatMap_cons, List.flatMap_nil,
              List.append_nil, eventDelta]
            exact eventToolCalls?_indices uuid st.toolCallIndex st.uctr e
          rw [show chunksToolIndices (r.chunk ::
              (adapterLoop uuid inc id cr m
                { isFirstChunk := false,
                  toolCallIndex :=
                    st.toolCallIndex + (if r.isToolCall then 1 else 0),
                  uctr := uc',
                  usage? := captureUsage st.usage? e } rest).1) =
              chunkToolIndices r.chunk ++
                chunksToolIndices (adapterLoop uuid inc id cr m
                  { isFirstChunk := false,
                    toolCallIndex :=
                      st.toolCallIndex + (if r.isToolCall then 1 else 0),
                    uctr := uc',
                    usage? := captureUsage st.usage? e } rest).1 from rfl]
          rw [hhead, hit, ih _, List.countP_cons]
          cases hE : eventIsToolCall e with
          | false => simp
          | true => simp [List.range'_succ]

/-! ## Whole-stream structure lemmas and claim theorems for the adapter -/

theorem geminiToOpenAIStream_eq (uuid : Nat → String) (u0 now : Nat)
    (events : List GeminiEvent) (model : String) (inc : Bool) :
    geminiToOpenAIStream uuid u0 now events model inc =
      (adapterLoop uuid inc ("chatcmpl-" ++ uuid u0) now model
          { isFirstChunk := true, toolCallIndex := 0, uctr := u0 + 1,
            usage? := none } events).1.map SSEData.chunk ++
        [SSEData.chunk (finalChunk ("chatcmpl-" ++ uuid u0) now model
          (adapterLoop uuid inc ("chatcmpl-" ++ uuid u0) now model
            { isFirstChunk := true, toolCallIndex := 0, uctr := u0 + 1,
              usage? := none } events).2.usage?),
         SSEData.done] := rfl

theorem collectChunks_stream (uuid : Nat → String) (u0 now : Nat)
    (events : List GeminiEvent) (model : String) (inc : Bool) :
    collectChunks (geminiToOpenAIStream uuid u0 now events model inc) =
      (adapterLoop uuid inc ("chatcmpl-" ++ uuid u0) now model
          { isFirstChunk := true, toolCallIndex := 0, uctr := u0 + 1,
            usage? := none } events).1 ++
        [finalChunk ("chatcmpl-" ++ uuid u0) now model
          (adapterLoop uuid inc ("chatcmpl-" ++ uuid u0) now model
            { isFirstChunk := true, toolCallIndex := 0, uctr := u0 + 1,
              usage? := none } events).2.usage?] := by
  rw [geminiToOpenAIStream_eq]
  unfold collectChunks
  rw [List.filterMap_append, List.filterMap_map]
  congr 1
  rw [show ((fun m =>
      match m with
      | SSEData.chunk c => some c
      | SSEData.done => none) ∘ SSEData.chunk) = some from
        funext (fun _ => rfl),
    List.filterMap_some]

theorem mem_stream_id_created (uuid : Nat → String) (u0 now : Nat)
    (events : List GeminiEvent) (model : String) (inc : Bool) (c : Chunk)
    (hc : SSEData.chunk c ∈ geminiToOpenAIStream uuid u0 now events model inc) :
    c.id = "chatcmpl-" ++ uuid u0 ∧ c.created = now := by
  rw [geminiToOpenAIStream_eq] at hc
  rcases List.mem_append.mp hc with hmem | hmem
  · rcases List.mem_map.mp hmem with ⟨c', hc', heq⟩
    have hcc : c' = c := by injection heq
    subst hcc
    exact adapterLoop_id_created uuid inc _ now model events _ c' hc'
  · simp only [List.mem_cons, List.not_mem_nil, or_false] at hmem
    rcases hmem with hmem | hmem
    · have hcc : c = finalChunk ("chatcmpl-" ++ uuid u0) now model
          (adapterLoop uuid inc ("chatcmpl-" ++ uuid u0) now model
            { isFirstChunk := true, toolCallIndex := 0, uctr := u0 + 1,
              usage? := none } events).2.usage? := by
        injection hmem
      subst hcc
      exact ⟨rfl, rfl⟩
    · exact SSEData.noConfusion hmem

/-- C5: every chunk the stream adapter yields — including the terminal
empty-delta chunk — carries the id and `created` value fixed once at stream
entry. -/
theorem stream_id_created_stable (uuid : Nat → String) (u0 now : Nat)
    (events : List GeminiEvent) (model : String) (inc : Bool) (c : Chunk)
    (hc : SSEData.chunk c ∈ geminiToOpenAIStream uuid u0 now events model inc) :
    c.id = "chatcmpl-" ++ uuid u0 ∧ c.created = now :=
  mem_stream_id_created uuid u0 now events model inc c hc

/-- C5 witness: a concrete stream's first emitted chunk, its membership
discharged by evaluation. -/
theorem stream_id_created_stable_witness :
    SSEData.chunk sampleContentChunk ∈
      geminiToOpenAIStream sampleUuid 0 100 [.content "hi"] "m" false ∧
    sampleContentChunk.id = "chatcmpl-" ++ sampleUuid 0 ∧
    sampleContentChunk.created = 100 := by
  refine ⟨by decide, ?_, ?_⟩
  · exact (stream_id_created_stable sampleUuid 0 100 [.content "hi"] "m"
      false sampleContentChunk (by decide)).1
  · exact (stream_id_created_stable sampleUuid 0 100 [.content "hi"] "m"
      false sampleContentChunk (by decide)).2

/-- C6: the `tool_calls` indices emitted across one adapted stream are
`0, 1, 2, …` — contiguous in emission order: the emitted index list equals
`List.range` of its own length. -/
theorem tool_call_indices_contiguous (uuid : Nat → String) (u0 now : Nat)
    (events : List GeminiEvent) (model : String) (inc : Bool)
    (h : 2 ≤ countToolCallEvents events) :
    outToolIndices (geminiToOpenAIStream uuid u0 now events model inc) =
      List.range
        (outToolIndices (geminiToOpenAIStream uuid u0 now events model
          inc)).length := by
  have hout : outToolIndices (geminiToOpenAIStream uuid u0 now events model inc) =
      chunksToolIndices (adapterLoop uuid inc ("chatcmpl-" ++ uuid u0) now model
        { isFirstChunk := true, toolCallIndex := 0, uctr := u0 + 1,
          usage? := none } events).1 := by
    rw [geminiToOpenAIStream_eq]
    simp [outToolIndices, chunksToolIndices, finalChunk, chunkToolIndices,
      List.flatMap_append, List.flatMap_map]
    rfl
  rw [hout, adapterLoop_toolIndices]
  rw [← List.range_eq_range', List.length_range]

/-- C6 witness: two tool-call events with an interleaved content event emit
indices `[0, 1]`. -/
theorem tool_call_indices_contiguous_witness :
    2 ≤ countToolCallEvents [sampleToolEvent, .content "x", sampleToolEvent] ∧
    outToolIndices (geminiToOpenAIStream sampleUuid 0 7
        [sampleToolEvent, .content "x", sampleToolEvent] "m" false) =
      List.range (outToolIndices (geminiToOpenAIStream sampleUuid 0 7
        [sampleToolEvent, .content "x", sampleToolEvent] "m" false)).length :=
  ⟨by decide,
   tool_call_indices_contiguous sampleUuid 0 7
     [sampleToolEvent, .content "x", sampleToolEvent] "m" false (by decide)⟩

/-- C1 (amended): after the source stream completes the adapter emits exactly
one more chunk — empty delta, `finish_reason` always `'stop'`, carrying the
usage captured from `finished` events — and then the `[DONE]` sentinel. -/
theorem terminal_chunk_is_stop_then_done (uuid : Nat → String) (u0 now : Nat)
    (events : List GeminiEvent) (model : String) (inc : Bool) :
    ∃ pre : List Chunk,
      geminiToOpenAIStream uuid u0 now events model inc =
        pre.map SSEData.chunk ++
          [SSEData.chunk
             { id := "chatcmpl-" ++ uuid u0,
               object := "chat.completion.chunk",
               created := now, model := model,
               choices := [{ index := 0, delta := {},
                             finishReason? := some "stop" }],
               usage? := events.foldl captureUsage none },
           SSEData.done] := by
  refine ⟨(adapterLoop uuid inc ("chatcmpl-" ++ uuid u0) now model
    { isFirstChunk := true, toolCallIndex := 0, uctr := u0 + 1,
      usage? := none } events).1, ?_⟩
  rw [geminiToOpenAIStream_eq]
  have husage := adapterLoop_usage uuid inc ("chatcmpl-" ++ uuid u0) now model
    events { isFirstChunk := true, toolCallIndex := 0, uctr := u0 + 1,
             usage? := none }
  simp only [finalChunk, husage]

/-- C1 counterexample: for the engine stream
`[content "hi", finished MAX_TOKENS]`, the terminal chunk's finish reason is
`stop`, not the mapped `length` — the mapping in `processEvent` never reaches
the terminal chunk. -/
theorem terminal_finish_ignores_reason_cex :
    terminalFinishReason? (geminiToOpenAIStream sampleUuid 0 7
        [.content "hi", .finished (some "MAX_TOKENS") none] "m" false) =
      some "stop" ∧
    terminalFinishReason? (geminiToOpenAIStream sampleUuid 0 7
        [.content "hi", .finished (some "MAX_TOKENS") none] "m" false) ≠
      some "length" := by
  constructor
  · rfl
  · decide

/-- C2 (amended): for streams yielding no (truthy) content event and no
tool-call request, the non-streaming route raises `"no content received"`
exactly when the engine stream yields no events at all — any first event
emits at least a role-only chunk, making the collected chunk count exceed
the guard's `<= 1` bound. -/
theorem noContent_guard_iff (uuid : Nat → String) (u0 now : Nat)
    (events : List GeminiEvent) (model : String) (inc : Bool)
    (h : ∀ e ∈ events, eventYieldsContent e = false) :
    (nonStreamingPath uuid u0 now events model inc =
      .error noContentErrorMessage) ↔ events = [] := by
  constructor
  · intro herr
    cases events with
    | nil => rfl
    | cons e rest =>
        exfalso
        have hloop : (adapterLoop uuid inc ("chatcmpl-" ++ uuid u0) now model
            { isFirstChunk := true, toolCallIndex := 0, uctr := u0 + 1,
              usage? := none } (e :: rest)).1 ≠ [] :=
          adapterLoop_first_emits uuid inc _ now model e rest _ rfl
        have hlen : 2 ≤ (collectChunks (geminiToOpenAIStream uuid u0 now
            (e :: rest) model inc)).length := by
          rw [collectChunks_stream]
          rcases List.exists_cons_of_ne_nil hloop with ⟨c, l, hcl⟩
          rw [hcl]
          simp
        have hcond : (!((collectChunks (geminiToOpenAIStream uuid u0 now
            (e :: rest) model inc)).any chunkHasContent) &&
            decide ((collectChunks (geminiToOpenAIStream uuid u0 now
              (e :: rest) model inc)).length ≤ 1)) = false := by
          have h1 : ¬((collectChunks (geminiToOpenAIStream uuid u0 now
              (e :: rest) model inc)).length ≤ 1) := by omega
          simp [h1]
        rw [nonStreamingPath, hcond] at herr
        simp at herr
  · intro he
    subst he
    rfl

/-- C2 witness: the empty engine stream does raise the guard error. -/
theorem noContent_guard_iff_witness :
    nonStreamingPath sampleUuid 0 100 [] "m" false =
      .error noContentErrorMessage :=
  (noContent_guard_iff sampleUuid 0 100 [] "m" false (by simp)).mpr rfl

/-- C2 counterexample: an engine stream with zero content events and zero
tool calls (a suppressed thought, then `finished`) does NOT raise — the
suppressed thought still emits a role-only chunk, the guard's
`chunks.length <= 1` test fails, and the route returns a success whose
`message.content` is `null`. -/
theorem noContent_role_only_no_raise_cex :
    (nonStreamingPath sampleUuid 0 100
        [.thought none, .finished (some "STOP") none] "m" false).isOk = true ∧
    ((nonStreamingPath sampleUuid 0 100
        [.thought none, .finished (some "STOP") none] "m"
        false).toOption.bind responseMessage?).map (·.content?) =
      some none := by
  constructor
  · rfl
  · rfl

/-! ## Route history wiring (C7) -/

/-- C7: for a non-empty converted contents list, the route replaces the
shared session's history with everything except the last content — whatever
history was stored before — and submits exactly the last content's parts. -/
theorem route_overwrites_history (session : GeminiSession)
    (contents : List Content) (last : Content)
    (hlast : contents.getLast? = some last) :
    routePrepareInvocation session contents =
      some ({ history := contents.dropLast }, last.parts) := by
  unfold routePrepareInvocation
  rw [hlast]
  rfl

/-- C7 witness at a concrete two-turn conversation and a session holding
stale history. -/
theorem route_overwrites_history_witness :
    ([⟨"user", [Part.text "a"]⟩, ⟨"user", [Part.text "b"]⟩] :
        List Content).getLast? = some ⟨"user", [Part.text "b"]⟩ ∧
    routePrepareInvocation ⟨[⟨"model", [Part.text "old"]⟩]⟩
        [⟨"user", [Part.text "a"]⟩, ⟨"user", [Part.text "b"]⟩] =
      some (⟨[⟨"user", [Part.text "a"]⟩]⟩, [Part.text "b"]) :=
  ⟨rfl, route_overwrites_history ⟨[⟨"model", [Part.text "old"]⟩]⟩
    [⟨"user", [Part.text "a"]⟩, ⟨"user", [Part.text "b"]⟩]
    ⟨"user", [Part.text "b"]⟩ rfl⟩

/-! ## Streaming error path (C10) -/

/-- C10 (amended): the in-band error chunk written after SSE headers are sent
carries a freshly drawn id — distinct from the stream id on every chunk
already written — the error-time `created` (which need not differ from the
stream's `created`), the `"\n\n[Error: …]"` marker in `delta.content`,
finish reason `stop`, and the output ends with the `[DONE]` sentinel. -/
theorem streaming_error_chunk_spec (uuid : Nat → String)
    (hinj : Function.Injective uuid) (u0 uErr : Nat) (hne : u0 ≠ uErr)
    (tStart tErr : Nat) (model : String) (inc : Bool)
    (events : List GeminiEvent) (k : Nat) (errMessage? : Option String) :
    (streamErrorChunk uuid uErr tErr model errMessage?).id ≠
      "chatcmpl-" ++ uuid u0 ∧
    (∀ c : Chunk,
      SSEData.chunk c ∈
        (geminiToOpenAIStream uuid u0 tStart events model inc).take k →
      (streamErrorChunk uuid uErr tErr model errMessage?).id ≠ c.id) ∧
    (streamErrorChunk uuid uErr tErr model errMessage?).created = tErr ∧
    (streamErrorChunk uuid uErr tErr model errMessage?).choices.map
        (·.delta.content?) =
      [some ("\n\n[Error: " ++ errMessage?.getD "Stream error" ++ "]")] ∧
    (streamErrorChunk uuid uErr tErr model errMessage?).choices.map
        (·.finishReason?) = [some "stop"] ∧
    (streamingErrorOutput uuid u0 tStart uErr tErr model inc events k
        errMessage?).getLast? = some SSEData.done := by
  have hid : (streamErrorChunk uuid uErr tErr model errMessage?).id ≠
      "chatcmpl-" ++ uuid u0 := by
    intro hsame
    have h1 : uuid uErr = uuid u0 :=
      string_append_left_cancel (s := "chatcmpl-") hsame
    exact hne (hinj h1).symm
  refine ⟨hid, ?_, rfl, rfl, rfl, ?_⟩
  · intro c hc
    have hmem : SSEData.chunk c ∈
        geminiToOpenAIStream uuid u0 tStart events model inc :=
      List.take_subset k _ hc
    have hcid := (mem_stream_id_created uuid u0 tStart events model inc c
      hmem).1
    rw [hcid]
    exact hid
  · unfold streamingErrorOutput
    rw [show (geminiToOpenAIStream uuid u0 tStart events model inc).take k ++
        [SSEData.chunk (streamErrorChunk uuid uErr tErr model errMessage?),
         SSEData.done] =
      ((geminiToOpenAIStream uuid u0 tStart events model inc).take k ++
        [SSEData.chunk (streamErrorChunk uuid uErr tErr model errMessage?)]) ++
        [SSEData.done] by simp]
    exact List.getLast?_concat _

/-- C10 witness: a concrete stream and error instant. -/
theorem streaming_error_chunk_spec_witness :
    (streamErrorChunk sampleUuid 1 101 "m" (some "boom")).id ≠
      "chatcmpl-" ++ sampleUuid 0 ∧
    (streamErrorChunk sampleUuid 1 101 "m" (some "boom")).created = 101 :=
  ⟨(streaming_error_chunk_spec sampleUuid sampleUuid_injective 0 1
      (by decide) 100 101 "m" false [.content "hi"] 1 (some "boom")).1,
   (streaming_error_chunk_spec sampleUuid sampleUuid_injective 0 1
      (by decide) 100 101 "m" false [.content "hi"] 1 (some "boom")).2.2.1⟩

/-- C10 counterexample: when the error occurs within the same epoch second
as stream entry, the in-band error chunk's `created` EQUALS the `created` of
the chunk already written — the claim's "both differing" fails for
`created`. -/
theorem stream_error_created_equal_cex :
    nthChunkCreated (streamingErrorOutput sampleUuid 0 100 1 100 "m" false
      [.content "hi"] 1 (some "boom")) 0 = some 100 ∧
    nthChunkCreated (streamingErrorOutput sampleUuid 0 100 1 100 "m" false
      [.content "hi"] 1 (some "boom")) 1 = some 100 :=
  ⟨rfl, rfl⟩

/-! ## Error translator (C9) -/

/-- C9: the status→(type, code) table of the error translator, and the
500-default for errors with no discoverable status (no Gaxios-style `status`
or `response.status`, no Fastify `statusCode`, and not a validation error,
whose status is discovered as 400 by its own rule). -/
theorem error_status_taxonomy :
    mapStatusToErrorType 400 = ("invalid_request_error", "bad_request") ∧
    mapStatusToErrorType 401 = ("authentication_error", "invalid_api_key") ∧
    mapStatusToErrorType 403 = ("permission_error", "insufficient_permissions") ∧
    mapStatusToErrorType 404 = ("invalid_request_error", "model_not_found") ∧
    mapStatusToErrorType 429 = ("rate_limit_error", "rate_limit_exceeded") ∧
    (∀ s : Nat, 500 ≤ s →
      mapStatusToErrorType s = ("api_error", "server_error")) ∧
    (∀ s : Nat, s ≠ 400 → s ≠ 401 → s ≠ 403 → s ≠ 404 → s ≠ 429 → s < 500 →
      mapStatusToErrorType s = ("api_error", "internal_error")) ∧
    (∀ (parseErr : String → Option ParsedErrData) (err : JsError),
      err.code? ≠ some "FST_ERR_VALIDATION" →
      err.status? = none →
      err.statusCode? = none →
      (∀ ri, err.response? = some ri → ri.status? = none) →
      (errorHandler parseErr err).1 = 500 ∧
        (errorHandler parseErr err).2.etype = "api_error" ∧
        (errorHandler parseErr err).2.ecode = "server_error") := by
  refine ⟨by decide, by decide, by decide, by decide, by decide, ?_, ?_, ?_⟩
  · intro s hs
    unfold mapStatusToErrorType
    split_ifs <;> first | rfl | omega
  · intro s h1 h2 h3 h4 h5 h6
    unfold mapStatusToErrorType
    split_ifs <;> first | rfl | omega
  · intro parseErr err hcode hstat hsc hresp
    have hgax : extractGaxiosError parseErr err = none := by
      simp only [extractGaxiosError, hstat]
      cases hr : err.response? with
      | none => rfl
      | some ri => simp [hresp ri hr]
    refine ⟨?_, ?_, ?_⟩ <;>
      simp [errorHandler, hcode, hgax, hsc, createOpenAIError,
        mapStatusToErrorType]

/-- C9 witness: table rows and the status-less default at concrete inputs. -/
theorem error_status_taxonomy_witness :
    mapStatusToErrorType 500 = ("api_error", "server_error") ∧
    mapStatusToErrorType 418 = ("api_error", "internal_error") ∧
    (errorHandler (fun _ => none) ⟨none, none, none, none, none⟩).1 = 500 :=
  ⟨error_status_taxonomy.2.2.2.2.2.1 500 (by norm_num),
   error_status_taxonomy.2.2.2.2.2.2.1 418 (by decide) (by decide) (by decide)
     (by decide) (by decide) (by decide),
   (error_status_taxonomy.2.2.2.2.2.2.2 (fun _ => none)
     ⟨none, none, none, none, none⟩ (by decide) rfl rfl
     (fun ri h => Option.noConfusion h)).1⟩

/-! ## Message converter theorems (C3, C8) -/

theorem openaiToGeminiGo_parts_ne_nil (parse : String → Option Json)
    (fetch : String → Option FetchResponse) :
    ∀ (msgs : List OAIMessage) (sys? : Option String) (acc : List Content)
      (r : ConvertResult),
      (∀ c ∈ acc, c.parts ≠ []) →
      openaiToGeminiGo parse fetch sys? acc msgs = .ok r →
      ∀ c ∈ r.contents, c.parts ≠ [] := by
  intro msgs
  induction msgs with
  | nil =>
      intro sys? acc r hacc hok c hc
      rw [openaiToGeminiGo] at hok
      injection hok with h
      subst h
      exact hacc c hc
  | cons m rest ih =>
      intro sys? acc r hacc hok c hc
      cases m with
      | system content =>
          rw [openaiToGeminiGo] at hok
          exact ih _ _ _ hacc hok c hc
      | user content =>
          rw [openaiToGeminiGo] at hok
          by_cases hp : (convertContentToParts fetch content).length > 0
          · rw [if_pos hp] at hok
            refine ih _ _ _ ?_ hok c hc
            intro c' hc'
            rcases List.mem_append.mp hc' with hm | hm
            · exact hacc c' hm
            · rcases List.mem_singleton.mp hm with rfl
              intro hnil
              rw [show (⟨"user", convertContentToParts fetch content⟩ :
                  Content).parts = convertContentToParts fetch content from
                  rfl] at hnil
              rw [hnil] at hp
              simp at hp
          · rw [if_neg hp] at hok
            exact ih _ _ _ hacc hok c hc
      | assistant content toolCalls =>
          rw [openaiToGeminiGo] at hok
          cases hatp : assistantParts parse content toolCalls with
          | error e => rw [hatp] at hok; cases hok
          | ok parts =>
              rw [hatp] at hok
              dsimp only at hok
              by_cases hp : parts.length > 0
              · rw [if_pos hp] at hok
                refine ih _ _ _ ?_ hok c hc
                intro c' hc'
                rcases List.mem_append.mp hc' with hm | hm
                · exact hacc c' hm
                · rcases List.mem_singleton.mp hm with rfl
                  intro hnil
                  rw [show (⟨"model", parts⟩ : Content).parts = parts from
                    rfl] at hnil
                  rw [hnil] at hp
                  simp at hp
              · rw [if_neg hp] at hok
                exact ih _ _ _ hacc hok c hc
      | tool toolCallId content =>
          rw [openaiToGeminiGo] at hok
          refine ih _ _ _ ?_ hok c hc
          intro c' hc'
          rcases List.mem_append.mp hc' with hm | hm
          · exact hacc c' hm
          · rcases List.mem_singleton.mp hm with rfl
            simp

/-- C3 (amended): the converter never appends a contents entry with zero
parts; a user turn with empty (falsy) content and an assistant turn with no
text and no tool calls are dropped entirely.  (Whitespace-only content is a
truthy string and is NOT dropped — see the counterexample.) -/
theorem converter_never_empty_turn (parse : String → Option Json)
    (fetch : String → Option FetchResponse) :
    (∀ msgs r, openaiToGemini parse fetch msgs = .ok r →
      ∀ c ∈ r.contents, c.parts ≠ []) ∧
    openaiToGemini parse fetch [.user (.str "")] = .ok ⟨none, []⟩ ∧
    openaiToGemini parse fetch [.user .nullish] = .ok ⟨none, []⟩ ∧
    openaiToGemini parse fetch [.assistant .nullish []] = .ok ⟨none, []⟩ := by
  refine ⟨?_, rfl, rfl, rfl⟩
  intro msgs r hok
  exact openaiToGeminiGo_parts_ne_nil parse fetch msgs none [] r
    (by simp) hok

/-- C3 witness: a nonempty user turn converts to a turn whose parts list is
provably nonempty via the invariant. -/
theorem converter_never_empty_turn_witness :
    openaiToGemini (fun _ => none) (fun _ => none) [.user (.str "hi")] =
      .ok ⟨none, [⟨"user", [Part.text "hi"]⟩]⟩ ∧
    (⟨"user", [Part.text "hi"]⟩ : Content).parts ≠ [] :=
  ⟨rfl,
   (converter_never_empty_turn (fun _ => none) (fun _ => none)).1
     [.user (.str "hi")] ⟨none, [⟨"user", [Part.text "hi"]⟩]⟩ rfl
     ⟨"user", [Part.text "hi"]⟩ (List.mem_singleton.mpr rfl)⟩

/-- C3 counterexample: a whitespace-only user turn is NOT dropped — `'   '`
is a truthy string, so the turn converts to a contents entry carrying the
blank text. -/
theorem whitespace_user_turn_kept_cex :
    openaiToGemini (fun _ => none) (fun _ => none) [.user (.str "   ")] =
      .ok ⟨none, [⟨"user", [Part.text "   "]⟩]⟩ := rfl

theorem openaiToGeminiGo_sysInstr (parse : String → Option Json)
    (fetch : String → Option FetchResponse) :
    ∀ (msgs : List OAIMessage) (sys? : Option String) (acc : List Content)
      (r : ConvertResult),
      openaiToGeminiGo parse fetch sys? acc msgs = .ok r →
      r.systemInstruction = sysAfter sys? msgs := by
  intro msgs
  induction msgs with
  | nil =>
      intro sys? acc r hok
      rw [openaiToGeminiGo] at hok
      injection hok with h
      subst h
      rfl
  | cons m rest ih =>
      intro sys? acc r hok
      cases m with
      | system content =>
          rw [openaiToGeminiGo] at hok
          exact ih _ _ _ hok
      | user content =>
          rw [openaiToGeminiGo] at hok
          exact ih _ _ _ hok
      | assistant content toolCalls =>
          rw [openaiToGeminiGo] at hok
          cases hatp : assistantParts parse content toolCalls with
          | error e => rw [hatp] at hok; cases hok
          | ok parts =>
              rw [hatp] at hok
              dsimp only at hok
              exact ih _ _ _ hok
      | tool toolCallId content =>
          rw [openaiToGeminiGo] at hok
          exact ih _ _ _ hok

theorem sysAfter_of_lastSysFold :
    ∀ (msgs : List OAIMessage) (sys? : Option String)
      (c0? : Option OAIContent) (c : OAIContent),
      (∀ c', c0? = some c' → sys? = some (extractTextContent c')) →
      lastSysFold c0? msgs = some c →
      sysAfter sys? msgs = some (extractTextContent c) := by
  intro msgs
  induction msgs with
  | nil =>
      intro sys? c0? c hc hfold
      exact hc c hfold
  | cons m rest ih =>
      intro sys? c0? c hc hfold
      cases m with
      | system content =>
          exact ih (some (extractTextContent content)) (some content) c
            (fun c' hcc => by cases hcc; rfl) hfold
      | user content => exact ih sys? c0? c hc hfold
      | assistant content toolCalls => exact ih sys? c0? c hc hfold
      | tool toolCallId content => exact ih sys? c0? c hc hfold

theorem openaiToGeminiGo_filter_system (parse : String → Option Json)
    (fetch : String → Option FetchResponse) :
    ∀ (msgs : List OAIMessage) (sys? : Option String) (acc : List Content)
      (r : ConvertResult),
      openaiToGeminiGo parse fetch sys? acc msgs = .ok r →
      openaiToGeminiGo parse fetch none acc
          (msgs.filter (fun m => !m.isSystem)) = .ok ⟨none, r.contents⟩ := by
  intro msgs
  induction msgs with
  | nil =>
      intro sys? acc r hok
      rw [openaiToGeminiGo] at hok
      injection hok with h
      subst h
      rfl
  | cons m rest ih =>
      intro sys? acc r hok
      cases m with
      | system content =>
          rw [openaiToGeminiGo] at hok
          rw [show (OAIMessage.system content :: rest).filter
              (fun m => !m.isSystem) =
            rest.filter (fun m => !m.isSystem) from by
              simp [List.filter_cons, OAIMessage.isSystem]]
          exact ih _ _ _ hok
      | user content =>
          rw [openaiToGeminiGo] at hok
          rw [show (OAIMessage.user content :: rest).filter
              (fun m => !m.isSystem) =
            OAIMessage.user content :: rest.filter (fun m => !m.isSystem) from
              by simp [List.filter_cons, OAIMessage.isSystem]]
          rw [openaiToGeminiGo]
          exact ih _ _ _ hok
      | assistant content toolCalls =>
          rw [openaiToGeminiGo] at hok
          rw [show (OAIMessage.assistant content toolCalls :: rest).filter
              (fun m => !m.isSystem) =
            OAIMessage.assistant content toolCalls ::
              rest.filter (fun m => !m.isSystem) from
              by simp [List.filter_cons, OAIMessage.isSystem]]
          rw [openaiToGeminiGo]
          cases hatp : assistantParts parse content toolCalls with
          | error e => rw [hatp] at hok; cases hok
          | ok parts =>
              rw [hatp] at hok
              dsimp only at hok
              exact ih _ _ _ hok
      | tool toolCallId content =>
          rw [openaiToGeminiGo] at hok
          rw [show (OAIMessage.tool toolCallId content :: rest).filter
              (fun m => !m.isSystem) =
            OAIMessage.tool toolCallId content ::
              rest.filter (fun m => !m.isSystem) from
              by simp [List.filter_cons, OAIMessage.isSystem]]
          rw [openaiToGeminiGo]
          exact ih _ _ _ hok

/-- C8: when the message list contains system turns, the returned
`systemInstruction` is the extracted text of the LAST system turn (earlier
ones are silently discarded), and system turns contribute nothing to the
returned `contents` — converting the list with all system turns removed
yields exactly the same contents. -/
theorem last_system_wins (parse : String → Option Json)
    (fetch : String → Option FetchResponse) (msgs : List OAIMessage)
    (r : ConvertResult) (sysc : OAIContent)
    (hsys : lastSystemContent? msgs = some sysc)
    (hok : openaiToGemini parse fetch msgs = .ok r) :
    r.systemInstruction = some (extractTextContent sysc) ∧
    openaiToGemini parse fetch (msgs.filter (fun m => !m.isSystem)) =
      .ok ⟨none, r.contents⟩ := by
  constructor
  · have h1 := openaiToGeminiGo_sysInstr parse fetch msgs none [] r hok
    have h2 := sysAfter_of_lastSysFold msgs none none sysc
      (fun c' hc => by cases hc) hsys
    rw [h1, h2]
  · exact openaiToGeminiGo_filter_system parse fetch msgs none [] r hok

/-- C8 witness: two system turns — the second one wins and neither appears in
`contents`. -/
theorem last_system_wins_witness :
    openaiToGemini (fun _ => none) (fun _ => none)
        [.system (.str "a"), .system (.str "b"), .user (.str "hi")] =
      .ok ⟨some "b", [⟨"user", [Part.text "hi"]⟩]⟩ ∧
    (⟨some "b", [⟨"user", [Part.text "hi"]⟩]⟩ :
        ConvertResult).systemInstruction =
      some (extractTextContent (.str "b")) :=
  ⟨rfl,
   (last_system_wins (fun _ => none) (fun _ => none)
     [.system (.str "a"), .system (.str "b"), .user (.str "hi")]
     ⟨some "b", [⟨"user", [Part.text "hi"]⟩]⟩ (.str "b") rfl rfl).1⟩

/-! ## Aggregator lemmas (C4) -/

theorem string_empty_append (s : String) : "" ++ s = s := by
  cases s with
  | mk sd => exact congrArg String.mk (List.nil_append sd)

theorem accInsert_length (i : Nat) (a : ToolCallAcc) :
    ∀ l : List (Nat × ToolCallAcc), (accInsert i a l).length = l.length + 1 := by
  intro l
  induction l with
  | nil => rfl
  | cons e rest ih =>
      rw [accInsert]
      by_cases hij : i < e.1
      · rw [if_pos hij]
        rfl
      · rw [if_neg hij]
        simp [ih]

theorem accModify_length (i : Nat) (f : ToolCallAcc → ToolCallAcc)
    (l : List (Nat × ToolCallAcc)) : (accModify i f l).length = l.length :=
  List.length_map l _

theorem accLookup_insert_self (i : Nat) (a : ToolCallAcc) :
    ∀ l : List (Nat × ToolCallAcc), accLookup i l = none →
      accLookup i (accInsert i a l) = some a := by
  intro l
  induction l with
  | nil => intro _; simp [accInsert, accLookup]
  | cons e rest ih =>
      intro hl
      rw [accLookup] at hl
      by_cases hei : e.1 = i
      · rw [if_pos hei] at hl
        cases hl
      · rw [if_neg hei] at hl
        rw [accInsert]
        by_cases hij : i < e.1
        · rw [if_pos hij, accLookup, if_pos rfl]
        · rw [if_neg hij, accLookup, if_neg hei]
          exact ih hl

theorem accLookup_insert_other {i j : Nat} (hne : j ≠ i) (a : ToolCallAcc) :
    ∀ l : List (Nat × ToolCallAcc),
      accLookup j (accInsert i a l) = accLookup j l := by
  intro l
  induction l with
  | nil => simp [accInsert, accLookup, hne.symm]
  | cons e rest ih =>
      rw [accInsert]
      by_cases hij : i < e.1
      · rw [if_pos hij, accLookup, if_neg (fun h : i = j => hne h.symm)]
      · rw [if_neg hij, accLookup, accLookup]
        by_cases hej : e.1 = j
        · rw [if_pos hej, if_pos hej]
        · rw [if_neg hej, if_neg hej]
          exact ih

theorem accLookup_modify_self (i : Nat) (f : ToolCallAcc → ToolCallAcc) :
    ∀ l : List (Nat × ToolCallAcc),
      accLookup i (accModify i f l) = (accLookup i l).map f := by
  intro l
  induction l with
  | nil => rfl
  | cons e rest ih =>
      rw [accModify, List.map_cons, ← accModify]
      by_cases hei : e.1 = i
      · rw [if_pos hei, accLookup, accLookup, if_pos hei, if_pos hei]
        rfl
      · rw [if_neg hei, accLookup, accLookup, if_neg hei, if_neg hei]
        exact ih

theorem accLookup_modify_other {i j : Nat} (hne : j ≠ i)
    (f : ToolCallAcc → ToolCallAcc) :
    ∀ l : List (Nat × ToolCallAcc),
      accLookup j (accModify i f l) = accLookup j l := by
  intro l
  induction l with
  | nil => rfl
  | cons e rest ih =>
      rw [accModify, List.map_cons, ← accModify]
      by_cases hei : e.1 = i
      · rw [if_pos hei, accLookup, accLookup]
        have hej : ¬(e.1 = j) := fun h => hne (h ▸ hei ▸ rfl)
        rw [if_neg hej, if_neg hej]
        exact ih
      · rw [if_neg hei, accLookup, accLookup]
        by_cases hej : e.1 = j
        · rw [if_pos hej, if_pos hej]
        · rw [if_neg hej, if_neg hej]
          exact ih

theorem accLookup_mem_map {j : Nat} {a : ToolCallAcc} :
    ∀ {l : List (Nat × ToolCallAcc)}, accLookup j l = some a →
      a ∈ l.map (·.2) := by
  intro l
  induction l with
  | nil => intro h; cases h
  | cons e rest ih =>
      intro h
      rw [accLookup] at h
      by_cases hej : e.1 = j
      · rw [if_pos hej] at h
        injection h with h
        subst h
        exact List.mem_cons_self _ _
      · rw [if_neg hej] at h
        exact List.mem_cons_of_mem _ (ih h)

theorem appendToolCallName_length (i : Nat) (name? : Option String)
    (acc : List (Nat × ToolCallAcc)) :
    (appendToolCallName i name? acc).length = acc.length := by
  cases name? with
  | none => rfl
  | some n =>
      rw [appendToolCallName]
      split
      · rfl
      · exact accModify_length i _ acc

theorem appendToolCallArguments_length (i : Nat) (arguments? : Option String)
    (acc : List (Nat × ToolCallAcc)) :
    (appendToolCallArguments i arguments? acc).length = acc.length := by
  cases arguments? with
  | none => rfl
  | some s =>
      rw [appendToolCallArguments]
      split
      · rfl
      · exact accModify_length i _ acc

theorem appendToolCallName_other {i j : Nat} (hne : j ≠ i)
    (name? : Option String) (acc : List (Nat × ToolCallAcc)) :
    accLookup j (appendToolCallName i name? acc) = accLookup j acc := by
  cases name? with
  | none => rfl
  | some n =>
      rw [appendToolCallName]
      split
      · rfl
      · exact accLookup_modify_other hne _ acc

theorem appendToolCallArguments_other {i j : Nat} (hne : j ≠ i)
    (arguments? : Option String) (acc : List (Nat × ToolCallAcc)) :
    accLookup j (appendToolCallArguments i arguments? acc) = accLookup j acc := by
  cases arguments? with
  | none => rfl
  | some s =>
      rw [appendToolCallArguments]
      split
      · rfl
      · exact accLookup_modify_other hne _ acc

theorem applyToolCallDelta_other {uuid : Nat → String}
    {st : List (Nat × ToolCallAcc) × Nat} {tc : ToolCallDelta} {j : Nat}
    (h : tc.index? ≠ some j) :
    accLookup j (applyToolCallDelta uuid st tc).1 = accLookup j st.1 := by
  unfold applyToolCallDelta
  cases hidx : tc.index? with
  | none => rfl
  | some i =>
      have hij : j ≠ i := fun he => h (by rw [hidx, he])
      have h1 : accLookup j (ensureToolCallSlot uuid st i tc.id?).1 =
          accLookup j st.1 := by
        unfold ensureToolCallSlot
        by_cases hs : (accLookup i st.1).isSome
        · rw [if_pos hs]
        · rw [if_neg hs]
          cases tc.id? with
          | some cid => exact accLookup_insert_other hij _ st.1
          | none => exact accLookup_insert_other hij _ st.1
      calc accLookup j (appendToolCallArguments i tc.arguments?
              (appendToolCallName i tc.name?
                (ensureToolCallSlot uuid st i tc.id?).1))
          = accLookup j (appendToolCallName i tc.name?
              (ensureToolCallSlot uuid st i tc.id?).1) :=
            appendToolCallArguments_other hij _ _
        _ = accLookup j (ensureToolCallSlot uuid st i tc.id?).1 :=
            appendToolCallName_other hij _ _
        _ = accLookup j st.1 := h1

theorem applyToolCallDelta_new {uuid : Nat → String}
    {st : List (Nat × ToolCallAcc) × Nat} {tc : ToolCallDelta} {i : Nat}
    (hidx : tc.index? = some i) (hfresh : accLookup i st.1 = none) :
    ∃ cid, accLookup i (applyToolCallDelta uuid st tc).1 =
      some ⟨cid, tc.name?.getD "", tc.arguments?.getD ""⟩ := by
  have hnotsome : ¬((accLookup i st.1).isSome = true) := by
    rw [hfresh]; simp
  have hensure : ∃ cid0,
      accLookup i (ensureToolCallSlot uuid st i tc.id?).1 =
        some ⟨cid0, "", ""⟩ := by
    unfold ensureToolCallSlot
    rw [if_neg hnotsome]
    cases tc.id? with
    | some cid => exact ⟨cid, accLookup_insert_self i _ st.1 hfresh⟩
    | none =>
        exact ⟨"call_" ++ uuid st.2, accLookup_insert_self i _ st.1 hfresh⟩
  obtain ⟨cid0, hcid0⟩ := hensure
  refine ⟨cid0, ?_⟩
  have hname : accLookup i (appendToolCallName i tc.name?
      (ensureToolCallSlot uuid st i tc.id?).1) =
      some ⟨cid0, tc.name?.getD "", ""⟩ := by
    cases hn : tc.name? with
    | none => rw [appendToolCallName]; exact hcid0
    | some n =>
        rw [appendToolCallName]
        by_cases hn0 : n = ""
        · rw [if_pos hn0, hn0]
          exact hcid0
        · rw [if_neg hn0, accLookup_modify_self, hcid0]
          simp [string_empty_append]
  rw [applyToolCallDelta, hidx]
  rw [show accLookup i
      (appendToolCallArguments i tc.arguments?
        (appendToolCallName i tc.name?
          (ensureToolCallSlot uuid st i tc.id?).1),
       (ensureToolCallSlot uuid st i tc.id?).2).1 =
      accLookup i (appendToolCallArguments i tc.arguments?
        (appendToolCallName i tc.name?
          (ensureToolCallSlot uuid st i tc.id?).1)) from rfl]
  cases ha : tc.arguments? with
  | none => rw [appendToolCallArguments]; exact hname
  | some s =>
      rw [appendToolCallArguments]
      by_cases hs0 : s = ""
      · rw [if_pos hs0, hs0]
        exact hname
      · rw [if_neg hs0, accLookup_modify_self, hname]
        simp [string_empty_append]

theorem applyToolCallDelta_length_new {uuid : Nat → String}
    {st : List (Nat × ToolCallAcc) × Nat} {tc : ToolCallDelta} {i : Nat}
    (hidx : tc.index? = some i) (hfresh : accLookup i st.1 = none) :
    (applyToolCallDelta uuid st tc).1.length = st.1.length + 1 := by
  have hnotsome : ¬((accLookup i st.1).isSome = true) := by
    rw [hfresh]; simp
  have hens : (ensureToolCallSlot uuid st i tc.id?).1.length =
      st.1.length + 1 := by
    unfold ensureToolCallSlot
    rw [if_neg hnotsome]
    cases tc.id? with
    | some cid => exact accInsert_length i _ st.1
    | none => exact accInsert_length i _ st.1
  rw [applyToolCallDelta, hidx]
  rw [show (appendToolCallArguments i tc.arguments?
        (appendToolCallName i tc.name?
          (ensureToolCallSlot uuid st i tc.id?).1),
       (ensureToolCallSlot uuid st i tc.id?).2).1 =
      appendToolCallArguments i tc.arguments?
        (appendToolCallName i tc.name?
          (ensureToolCallSlot uuid st i tc.id?).1) from rfl]
  rw [appendToolCallArguments_length, appendToolCallName_length, hens]

theorem foldl_applyToolCallDelta_preserve (uuid : Nat → String) :
    ∀ (tds : List ToolCallDelta) (st : List (Nat × ToolCallAcc) × Nat)
      (j : Nat),
      (∀ td ∈ tds, td.index? ≠ some j) →
      accLookup j (tds.foldl (applyToolCallDelta uuid) st).1 =
        accLookup j st.1 := by
  intro tds
  induction tds with
  | nil => intro st j _; rfl
  | cons td rest ih =>
      intro st j h
      rw [List.foldl_cons]
      rw [ih _ j (fun td' h' => h td' (List.mem_cons_of_mem _ h'))]
      exact applyToolCallDelta_other (h td (List.mem_cons_self _ _))

theorem foldl_applyToolCallDelta_main (uuid : Nat → String) :
    ∀ (tds : List ToolCallDelta) (st : List (Nat × ToolCallAcc) × Nat),
      (∀ td ∈ tds, (td.index?).isSome = true) →
      (tds.filterMap (·.index?)).Nodup →
      (∀ td ∈ tds, ∀ i, td.index? = some i → accLookup i st.1 = none) →
      (tds.foldl (applyToolCallDelta uuid) st).1.length =
          st.1.length + tds.length ∧
        (∀ td ∈ tds, ∀ i, td.index? = some i →
          ∃ cid, accLookup i (tds.foldl (applyToolCallDelta uuid) st).1 =
            some ⟨cid, td.name?.getD "", td.arguments?.getD ""⟩) := by
  intro tds
  induction tds with
  | nil =>
      intro st _ _ _
      exact ⟨rfl, fun td h => absurd h (List.not_mem_nil td)⟩
  | cons td rest ih =>
      intro st hall hnodup hfresh
      obtain ⟨i, hidx⟩ := Option.isSome_iff_exists.mp
        (hall td (List.mem_cons_self _ _))
      have hfr : accLookup i st.1 = none := hfresh td (List.mem_cons_self _ _) i hidx
      have hfm : (td :: rest).filterMap (·.index?) =
          i :: rest.filterMap (·.index?) := by
        rw [List.filterMap_cons]
        simp [hidx]
      rw [hfm] at hnodup
      have hnotin : i ∉ rest.filterMap (·.index?) :=
        (List.nodup_cons.mp hnodup).1
      have hnodup' : (rest.filterMap (·.index?)).Nodup :=
        (List.nodup_cons.mp hnodup).2
      have hrest_ne : ∀ td' ∈ rest, td'.index? ≠ some i := by
        intro td' h' hcontra
        exact hnotin (List.mem_filterMap.mpr ⟨td', h', hcontra⟩)
      have hfresh' : ∀ td' ∈ rest, ∀ i', td'.index? = some i' →
          accLookup i' (applyToolCallDelta uuid st td).1 = none := by
        intro td' h' i' hidx'
        have hii' : td.index? ≠ some i' := by
          intro hcontra
          rw [hidx] at hcontra
          injection hcontra with hcon
          subst hcon
          exact hrest_ne td' h' hidx'
        rw [applyToolCallDelta_other hii']
        exact hfresh td' (List.mem_cons_of_mem _ h') i' hidx'
      have hall' : ∀ td' ∈ rest, (td'.index?).isSome = true :=
        fun td' h' => hall td' (List.mem_cons_of_mem _ h')
      obtain ⟨ihlen, ihmem⟩ := ih (applyToolCallDelta uuid st td) hall'
        hnodup' hfresh'
      rw [List.foldl_cons]
      constructor
      · rw [ihlen, applyToolCallDelta_length_new hidx hfr]
        simp [Nat.add_assoc, Nat.add_comm 1 rest.length]
      · intro td' htd' i' hidx'
        rcases List.mem_cons.mp htd' with rfl | htail
        · have hii : i' = i := by
            rw [hidx] at hidx'
            injection hidx' with h
            exact h.symm
          subst hii
          obtain ⟨cid, hcid⟩ := applyToolCallDelta_new hidx hfr
          refine ⟨cid, ?_⟩
          rw [foldl_applyToolCallDelta_preserve uuid rest _ i' hrest_ne]
          exact hcid
        · exact ihmem td' htail i' hidx'

/-- Left folds that append strings factor through the empty accumulator. -/
theorem foldl_strAppend {α : Type} (g : α → String) :
    ∀ (l : List α) (s : String),
      l.foldl (fun acc x => acc ++ g x) s =
        s ++ l.foldl (fun acc x => acc ++ g x) "" := by
  intro l
  induction l with
  | nil => intro s; exact (string_append_empty s).symm
  | cons a t ih =>
      intro s
      rw [List.foldl_cons, List.foldl_cons, ih (s ++ g a), ih ("" ++ g a),
        string_empty_append, string_append_assoc]

theorem specContent_cons (c : Chunk) (rest : List Chunk) :
    specContent (c :: rest) =
      (((deltaOf c).bind (·.content?)).getD "") ++ specContent rest := by
  unfold specContent
  rw [List.foldl_cons, foldl_strAppend _ rest, string_empty_append]

theorem specReasoning_cons (c : Chunk) (rest : List Chunk) :
    specReasoning (c :: rest) =
      (((deltaOf c).bind (·.reasoningContent?)).getD "") ++
        specReasoning rest := by
  unfold specReasoning
  rw [List.foldl_cons, foldl_strAppend _ rest, string_empty_append]

theorem aggFold_content (uuid : Nat → String) :
    ∀ (chunks : List Chunk) (st : AggState),
      (chunks.foldl (aggStep uuid) st).content =
        st.content ++ specContent chunks := by
  intro chunks
  induction chunks with
  | nil => intro st; exact (string_append_empty _).symm
  | cons c rest ih =>
      intro st
      rw [List.foldl_cons, specContent_cons]
      cases hd : deltaOf c with
      | none =>
          rw [show aggStep uuid st c = st from by rw [aggStep, hd], ih,
            show ((none : Option Delta).bind (·.content?)).getD "" = "" from
              rfl, string_empty_append]
      | some d =>
          rw [show aggStep uuid st c =
              { content := st.content ++ (d.content?.getD ""),
                reasoningContent :=
                  st.reasoningContent ++ (d.reasoningContent?.getD ""),
                toolCalls := ((d.toolCalls?.getD []).foldl
                  (applyToolCallDelta uuid) (st.toolCalls, st.uctr)).1,
                uctr := ((d.toolCalls?.getD []).foldl
                  (applyToolCallDelta uuid) (st.toolCalls, st.uctr)).2 } from
              by rw [aggStep, hd], ih]
          rw [show ((some d).bind (·.content?)).getD "" =
            d.content?.getD "" from rfl, string_append_assoc]

theorem aggFold_reasoning (uuid : Nat → String) :
    ∀ (chunks : List Chunk) (st : AggState),
      (chunks.foldl (aggStep uuid) st).reasoningContent =
        st.reasoningContent ++ specReasoning chunks := by
  intro chunks
  induction chunks with
  | nil => intro st; exact (string_append_empty _).symm
  | cons c rest ih =>
      intro st
      rw [List.foldl_cons, specReasoning_cons]
      cases hd : deltaOf c with
      | none =>
          rw [show aggStep uuid st c = st from by rw [aggStep, hd], ih,
            show ((none : Option Delta).bind (·.reasoningContent?)).getD "" =
              "" from rfl, string_empty_append]
      | some d =>
          rw [show aggStep uuid st c =
              { content := st.content ++ (d.content?.getD ""),
                reasoningContent :=
                  st.reasoningContent ++ (d.reasoningContent?.getD ""),
                toolCalls := ((d.toolCalls?.getD []).foldl
                  (applyToolCallDelta uuid) (st.toolCalls, st.uctr)).1,
                uctr := ((d.toolCalls?.getD []).foldl
                  (applyToolCallDelta uuid) (st.toolCalls, st.uctr)).2 } from
              by rw [aggStep, hd], ih]
          rw [show ((some d).bind (·.reasoningContent?)).getD "" =
            d.reasoningContent?.getD "" from rfl, string_append_assoc]

theorem aggFold_toolCalls (uuid : Nat → String) :
    ∀ (chunks : List Chunk) (st : AggState),
      ((chunks.foldl (aggStep uuid) st).toolCalls,
        (chunks.foldl (aggStep uuid) st).uctr) =
        (streamToolDeltas chunks).foldl (applyToolCallDelta uuid)
          (st.toolCalls, st.uctr) := by
  intro chunks
  induction chunks with
  | nil => intro st; rfl
  | cons c rest ih =>
      intro st
      rw [List.foldl_cons]
      rw [show streamToolDeltas (c :: rest) =
        (((deltaOf c).bind (·.toolCalls?)).getD []) ++
          streamToolDeltas rest from by
            simp [streamToolDeltas, List.flatMap_cons]]
      rw [List.foldl_append]
      cases hd : deltaOf c with
      | none =>
          rw [show aggStep uuid st c = st from by rw [aggStep, hd], ih]
          rfl
      | some d =>
          rw [show aggStep uuid st c =
              { content := st.content ++ (d.content?.getD ""),
                reasoningContent :=
                  st.reasoningContent ++ (d.reasoningContent?.getD ""),
                toolCalls := ((d.toolCalls?.getD []).foldl
                  (applyToolCallDelta uuid) (st.toolCalls, st.uctr)).1,
                uctr := ((d.toolCalls?.getD []).foldl
                  (applyToolCallDelta uuid) (st.toolCalls, st.uctr)).2 } from
              by rw [aggStep, hd], ih]
          rfl

theorem responseMessage_eq (uuid : Nat → String) (u0 now : Nat)
    (chunks : List Chunk) (model : String) (usage? : Option Usage) :
    responseMessage? (buildNonStreamingResponse uuid u0 now chunks model
        usage?) =
      some { role := "assistant",
             content? :=
               if (chunks.foldl (aggStep uuid) ⟨"", "", [], u0⟩).content = ""
               then none
               else some (chunks.foldl (aggStep uuid)
                 ⟨"", "", [], u0⟩).content,
             reasoningContent? :=
               if (chunks.foldl (aggStep uuid)
                   ⟨"", "", [], u0⟩).reasoningContent = ""
               then none
               else some (chunks.foldl (aggStep uuid)
                 ⟨"", "", [], u0⟩).reasoningContent,
             toolCalls? :=
               if (chunks.foldl (aggStep uuid)
                   ⟨"", "", [], u0⟩).toolCalls.length > 0
               then some ((chunks.foldl (aggStep uuid)
                 ⟨"", "", [], u0⟩).toolCalls.map (·.2))
               else none } := by
  simp [buildNonStreamingResponse, responseMessage?]

theorem responseToolCalls_eq (uuid : Nat → String) (u0 now : Nat)
    (chunks : List Chunk) (model : String) (usage? : Option Usage) :
    responseToolCalls (buildNonStreamingResponse uuid u0 now chunks model
        usage?) =
      (chunks.foldl (aggStep uuid) ⟨"", "", [], u0⟩).toolCalls.map (·.2) := by
  unfold responseToolCalls
  rw [responseMessage_eq]
  by_cases h : (chunks.foldl (aggStep uuid) ⟨"", "", [], u0⟩).toolCalls.length > 0
  · simp [h]
  · have hempty : (chunks.foldl (aggStep uuid) ⟨"", "", [], u0⟩).toolCalls = [] := by
      rcases hcase : (chunks.foldl (aggStep uuid)
        ⟨"", "", [], u0⟩).toolCalls with _ | ⟨e, l⟩
      · rfl
      · exfalso
        apply h
        rw [hcase]
        simp
    simp [h, hempty]

/-- C4: aggregating a fully consumed adapted chunk sequence whose tool-call
deltas carry pairwise-distinct indices reconstructs exactly N tool calls —
one per delta, with `name`/`arguments` equal to the (singleton)
concatenation of that index's streamed fragments — and the response's
`content`/`reasoning_content` equal the in-order concatenation of the
corresponding delta fields (`null` standing for the empty concatenation). -/
theorem aggregator_reconstructs_stream (uuid : Nat → String) (u0 now : Nat)
    (chunks : List Chunk) (model : String) (usage? : Option Usage)
    (hall : ∀ td ∈ streamToolDeltas chunks, (td.index?).isSome = true)
    (hnodup : ((streamToolDeltas chunks).filterMap (·.index?)).Nodup) :
    (responseToolCalls (buildNonStreamingResponse uuid u0 now chunks model
        usage?)).length = (streamToolDeltas chunks).length ∧
    (∀ td ∈ streamToolDeltas chunks, ∀ i, td.index? = some i →
      ∃ a ∈ responseToolCalls (buildNonStreamingResponse uuid u0 now chunks
          model usage?),
        a.name = td.name?.getD "" ∧ a.arguments = td.arguments?.getD "") ∧
    responseContentText (buildNonStreamingResponse uuid u0 now chunks model
        usage?) = specContent chunks ∧
    responseReasoningText (buildNonStreamingResponse uuid u0 now chunks model
        usage?) = specReasoning chunks ∧
    (((responseMessage? (buildNonStreamingResponse uuid u0 now chunks model
        usage?)).bind (·.content?) = none) ↔ specContent chunks = "") := by
  have hfresh0 : ∀ td ∈ streamToolDeltas chunks, ∀ i, td.index? = some i →
      accLookup i (([], u0) : List (Nat × ToolCallAcc) × Nat).1 = none :=
    fun _ _ _ _ => rfl
  obtain ⟨hlen, hmem⟩ := foldl_applyToolCallDelta_main uuid
    (streamToolDeltas chunks) ([], u0) hall hnodup hfresh0
  have htc : (chunks.foldl (aggStep uuid) ⟨"", "", [], u0⟩).toolCalls =
      ((streamToolDeltas chunks).foldl (applyToolCallDelta uuid) ([], u0)).1 :=
    congrArg Prod.fst (aggFold_toolCalls uuid chunks ⟨"", "", [], u0⟩)
  have hcontent : (chunks.foldl (aggStep uuid) ⟨"", "", [], u0⟩).content =
      specContent chunks := by
    rw [aggFold_content, string_empty_append]
  have hreason : (chunks.foldl (aggStep uuid)
      ⟨"", "", [], u0⟩).reasoningContent = specReasoning chunks := by
    rw [aggFold_reasoning, string_empty_append]
  refine ⟨?_, ?_, ?_, ?_, ?_⟩
  · rw [responseToolCalls_eq, List.length_map, htc, hlen]
    simp
  · intro td htd i hidx
    obtain ⟨cid, hcid⟩ := hmem td htd i hidx
    refine ⟨⟨cid, td.name?.getD "", td.arguments?.getD ""⟩, ?_, rfl, rfl⟩
    rw [responseToolCalls_eq, htc]
    exact accLookup_mem_map hcid
  · unfold responseContentText
    rw [responseMessage_eq]
    by_cases hz : (chunks.foldl (aggStep uuid) ⟨"", "", [], u0⟩).content = ""
    · simp [hz]
      rw [← hcontent, hz]
    · simp [hz]
      exact hcontent
  · unfold responseReasoningText
    rw [responseMessage_eq]
    by_cases hz : (chunks.foldl (aggStep uuid)
        ⟨"", "", [], u0⟩).reasoningContent = ""
    · simp [hz]
      rw [← hreason, hz]
    · simp [hz]
      exact hreason
  · rw [responseMessage_eq]
    by_cases hz : (chunks.foldl (aggStep uuid) ⟨"", "", [], u0⟩).content = ""
    · simp [hz]
      rw [← hcontent, hz]
    · simp [hz]
      rw [← hcontent]
      exact hz

/-- C4 witness: two tool-call deltas at indices 0 and 1, plus content,
aggregated into two reconstructed calls and the concatenated text. -/
theorem aggregator_reconstructs_stream_witness :
    (∀ td ∈ streamToolDeltas [sampleToolChunk0, sampleToolChunk1],
      (td.index?).isSome = true) ∧
    (responseToolCalls (buildNonStreamingResponse sampleUuid 50 9
        [sampleToolChunk0, sampleToolChunk1] "m" none)).length = 2 ∧
    responseContentText (buildNonStreamingResponse sampleUuid 50 9
        [sampleToolChunk0, sampleToolChunk1] "m" none) =
      specContent [sampleToolChunk0, sampleToolChunk1] := by
  refine ⟨by decide, ?_, ?_⟩
  · have h := (aggregator_reconstructs_stream sampleUuid 50 9
      [sampleToolChunk0, sampleToolChunk1] "m" none (by decide)
      (by decide)).1
    rw [h]
    decide
  · exact (aggregator_reconstructs_stream sampleUuid 50 9
      [sampleToolChunk0, sampleToolChunk1] "m" none (by decide)
      (by decide)).2.2.1

end GeminiProxy
